import Mathlib

set_option maxHeartbeats 1000000
set_option maxRecDepth 4000

/-!
Verification development for the multi-stage AI generation pipeline of the
interview-coder repository (`electron/ProcessingHelper.ts`).

Strings are modelled as `List Char`.  The JavaScript regular expressions of
the response extractors are compiled by hand into executable character
automata / scanners that follow the backtracking semantics of the concrete
patterns appearing in the source (each pattern is simple enough that its
backtracking is deterministic; this is argued case by case in the comments).
JavaScript whitespace (`\s`) and word (`\w`) classes are approximated by
their ASCII parts, which is exact on all inputs the theorems quantify over.
-/

abbrev Str := List Char

/-- ASCII part of the JavaScript `\s` class (also the class used by
`String.prototype.trim`). -/
def isWsChar (c : Char) : Bool :=
  c == ' ' || c == '\t' || c == '\n' || c == '\r' || c == '\x0b' || c == '\x0c'

/-- ASCII part of the JavaScript `\w` class. -/
def isWordChar (c : Char) : Bool :=
  c.isAlphanum || c == '_'

/-- `String.prototype.trim`: drop whitespace from both ends. -/
def trimStr (s : Str) : Str :=
  ((s.dropWhile isWsChar).reverse.dropWhile isWsChar).reverse

/-- ASCII lower-casing, for the `/i` regex flag. -/
def lowChar (c : Char) : Char := c.toLower

/-- Case-insensitive prefix test (regex literal under the `/i` flag). -/
def ciPre : Str → Str → Bool
  | [], _ => true
  | _ :: _, [] => false
  | p :: ps, c :: cs => (lowChar p == lowChar c) && ciPre ps cs

/-- Case-sensitive search for the first occurrence of `pat`; returns the text
before the occurrence and the text after it.  This is the engine behind the
leftmost-match rule of the fence-matching regexes. -/
def splitAtInfix (pat : Str) : Str → Option (Str × Str)
  | [] => if pat.isPrefixOf ([] : Str) then some ([], []) else none
  | c :: t =>
    if pat.isPrefixOf (c :: t) then some ([], (c :: t).drop pat.length)
    else (splitAtInfix pat t).map (fun p => (c :: p.1, p.2))

/-- Case-insensitive variant of `splitAtInfix`, returning the suffix that
starts at the first case-insensitive occurrence of `pat` (used to state
trigger-absence hypotheses). -/
def ciFind (pat : Str) : Str → Option Str
  | [] => if ciPre pat [] then some [] else none
  | c :: t => if ciPre pat (c :: t) then some (c :: t) else ciFind pat t

/-- `pat` occurs case-insensitively somewhere in `s`. -/
def ciInfixB (pat s : Str) : Bool := (ciFind pat s).isSome

/-- The triple-backtick fence delimiter. -/
def fence : Str := "```".toList

/-! ### extractBulletPoints (ProcessingHelper.extractBulletPoints)

Source regex: `/(?:^|\n)\s*(?:[-*•]|\d+\.)\s*(.*)/g` used with `matchAll`,
then `matches.map(m => m[1].trim()).filter(Boolean)`; if there is no match,
fallback `text.split(/(?:[.!?]\s+|\n)/).map(s => s.trim()).filter(Boolean)`
truncated to at most 5 fragments.

The matcher is compiled to a deterministic automaton: after an anchor
(start of text or a literal newline) the first `\s*` greedily skips
whitespace (including newlines) and must then see `[-*•]` or `\d+\.`;
since none of the marker characters are whitespace the greedy skip is
deterministic, and a failed attempt can resume scanning at the next
newline because every anchor inside a skipped whitespace run reaches the
same failure position. -/

inductive BState where
  | seek                 -- scanning for the next newline anchor
  | ws1                  -- after an anchor, inside the first `\s*`
  | dig                  -- inside `\d+`, waiting for the dot
  | ws2                  -- after the marker, inside the second `\s*`
  | cont (acc : Str)     -- inside `(.*)`, accumulating the group (reversed)
  deriving DecidableEq

def isMarkerChar (c : Char) : Bool := c == '-' || c == '*' || c == '•'

def bulletGo : BState → Str → List Str
  | st, [] =>
    match st with
    | .ws2 => [[]]                 -- `(.*)` matched the empty string
    | .cont acc => [acc.reverse]
    | _ => []
  | st, c :: t =>
    match st with
    | .seek => if c == '\n' then bulletGo .ws1 t else bulletGo .seek t
    | .ws1 =>
        if isWsChar c then bulletGo .ws1 t
        else if isMarkerChar c then bulletGo .ws2 t
        else if c.isDigit then bulletGo .dig t
        else bulletGo .seek t
    | .dig =>
        if c.isDigit then bulletGo .dig t
        else if c == '.' then bulletGo .ws2 t
        else if c == '\n' then bulletGo .ws1 t
        else bulletGo .seek t
    | .ws2 =>
        if isWsChar c then bulletGo .ws2 t
        else bulletGo (.cont [c]) t
    | .cont acc =>
        if c == '\n' then acc.reverse :: bulletGo .ws1 t
        else bulletGo (.cont (c :: acc)) t

/-- The raw capture groups of all matches of the bullet regex. -/
def bulletMatches (s : Str) : List Str := bulletGo .ws1 s

/-- `text.split(/(?:[.!?]\s+|\n)/)`: a separator is a `.`, `!` or `?`
followed by at least one whitespace character (the `\s+` is greedy and
maximal), or a single newline. -/
def splitSentGo (skipping : Bool) (acc : Str) (s : Str) : List Str :=
  match s with
  | [] => [acc.reverse]
  | c :: t =>
    if skipping && isWsChar c then splitSentGo true [] t
    else if c == '.' || c == '!' || c == '?' then
      match t with
      | d :: u =>
          if isWsChar d then acc.reverse :: splitSentGo true [] u
          else splitSentGo false (c :: acc) (d :: u)
      | [] => [(c :: acc).reverse]
    else if c == '\n' then acc.reverse :: splitSentGo false [] t
    else splitSentGo false (c :: acc) t
termination_by structural s

def splitSentences (s : Str) : List Str := splitSentGo false [] s

/-- `ProcessingHelper.extractBulletPoints`. -/
def extractBulletPoints (text : Str) : List Str :=
  let ms := bulletMatches text
  if ms.isEmpty then
    (((splitSentences text).map trimStr).filter (fun g => !g.isEmpty)).take 5
  else
    ((ms.map trimStr).filter (fun g => !g.isEmpty))

/-! ### extractCodeBlock (ProcessingHelper.extractCodeBlock)

Source: `/```(?:\w+)?\s*([\s\S]*?)```/` on the text; if it matches, the
trimmed group, otherwise the whole trimmed text.  The optional `\w+` and the
`\s*` are greedy, and since neither word characters nor whitespace contain a
backtick their greedy maximal runs are the only runs the engine ever
commits to; the lazy group then ends at the next occurrence of the fence.
If no closing fence exists after the first opening fence the whole regex
fails (no later starting position can have a closing fence either). -/
def extractCodeBlock (text : Str) : Str :=
  match splitAtInfix fence text with
  | none => trimStr text
  | some p =>
    let afterTag := p.2.dropWhile isWordChar
    let afterWs := afterTag.dropWhile isWsChar
    match splitAtInfix fence afterWs with
    | none => trimStr text
    | some q => trimStr q.1

/-! ### extractPseudoCode (ProcessingHelper.extractPseudoCode)

The source tries, in order:
  (a) ``` `(?:pseudocode|algorithm|plaintext)?\s*([\s\S]*?)` ``` fences (`/i`),
  (b) any ``` fence (`/i`),
  (c) `/(?:Pseudo[ -]?[Cc]ode:?|Algorithm:?)([\s\S]*?)(?=\n\s*(?:[A-Z][a-z]+:|\d+\.|$))/i`,
  (d) `/(?:##\s*Pseudo[ -]?[Cc]ode|##\s*Algorithm)([\s\S]*?)(?=##|$)/i`,
  (e) `/(?:Steps:|Algorithm steps:|Approach:)([\s\S]*?)(?=\n\s*(?:[A-Z][a-z]+:|\d+\.|Time|Space|$))/i`,
  (f) the full matches of `/(?:^|\n)\s*(?:\d+\.\s+)(.+)/g` joined with newlines,
and takes the first strategy whose trimmed result is non-empty, else `""`.
Under `/i` the class `[A-Z]` matches any ASCII letter and `[a-z]` likewise,
so the `[A-Z][a-z]+:` boundary is "two or more letters followed by a colon".
`$` has no `/m` flag and means end of the whole string. -/

/-- Leftmost-match scanner: apply `f` at each suffix, first `some` wins.
All the regexes modelled here are free of lookbehind, so whether a match
starts at a position depends only on the suffix at that position. -/
def firstScan {α : Type} (f : Str → Option α) : Str → Option α
  | [] => f []
  | c :: t =>
    match f (c :: t) with
    | some a => some a
    | none => firstScan f t

def isAsciiLetter (c : Char) : Bool := c.isAlpha

/-- `[A-Z][a-z]+:` under `/i`: a maximal letter run of length at least two
followed by a colon (the run must be maximal because a letter can never
match the `:`). -/
def letterColon (t : Str) : Bool :=
  2 ≤ (t.takeWhile isAsciiLetter).length &&
    (match t.dropWhile isAsciiLetter with | ':' :: _ => true | _ => false)

/-- `\d+\.`: a maximal digit run of length at least one followed by a dot. -/
def digitDot (t : Str) : Bool :=
  1 ≤ (t.takeWhile Char.isDigit).length &&
    (match t.dropWhile Char.isDigit with | '.' :: _ => true | _ => false)

/-- Scan of `\s*(?:[A-Z][a-z]+:|\d+\.|$)`: try the boundary at every
whitespace-skip depth (the backtracking of `\s*` inside the lookahead). -/
def lookScanA : Str → Bool
  | [] => true
  | c :: t =>
    if letterColon (c :: t) || digitDot (c :: t) then true
    else if isWsChar c then lookScanA t
    else false

/-- Scan of `\s*(?:[A-Z][a-z]+:|\d+\.|Time|Space|$)` (`/i`). -/
def lookScanC : Str → Bool
  | [] => true
  | c :: t =>
    if letterColon (c :: t) || digitDot (c :: t)
        || ciPre ("time".toList) (c :: t) || ciPre ("space".toList) (c :: t) then true
    else if isWsChar c then lookScanC t
    else false

/-- The lazy group `([\s\S]*?)(?=L)`: smallest prefix whose end satisfies the
lookahead `look`. -/
def lazyGroup (look : Str → Bool) : Str → Option Str
  | [] => if look [] then some [] else none
  | c :: t =>
    if look (c :: t) then some []
    else (lazyGroup look t).map (fun g => c :: g)

def stripColonOpt (v : Str) : Str := match v with | ':' :: u => u | _ => v

/-- `Pseudo[ -]?[Cc]ode` under `/i`; returns the suffix after the match.
The greedy `[ -]?` is deterministic because a space or hyphen can never
begin `code`; under `/i` the class `[Cc]` is redundant. -/
def pseudoCodeHead (s : Str) : Option Str :=
  if ciPre ("pseudo".toList) s then
    let u := s.drop 6
    match u with
    | c :: u2 =>
      if (c == ' ' || c == '-') && ciPre ("code".toList) u2 then some (u2.drop 4)
      else if ciPre ("code".toList) u then some (u.drop 4)
      else none
    | [] => none
  else none

/-- Head of strategy (c): `Pseudo[ -]?[Cc]ode:?|Algorithm:?`.  The optional
colon is consumed greedily; dropping it can never turn a failing tail into a
succeeding one because the lookahead positions (newlines) are disjoint from
the head characters, so only the greedy variant matters. -/
def headC (s : Str) : Option Str :=
  match pseudoCodeHead s with
  | some v => some (stripColonOpt v)
  | none =>
    if ciPre ("algorithm".toList) s then some (stripColonOpt (s.drop 9)) else none

def lookC (s : Str) : Bool :=
  match s with
  | '\n' :: t => lookScanA t
  | _ => false

def pseudoHeadingC (text : Str) : Option Str :=
  firstScan (fun s => (headC s).bind (lazyGroup lookC)) text

/-- Head of strategy (d): `##\s*Pseudo[ -]?[Cc]ode|##\s*Algorithm`. -/
def headD (s : Str) : Option Str :=
  if ("##".toList).isPrefixOf s then
    let w := (s.drop 2).dropWhile isWsChar
    match pseudoCodeHead w with
    | some v => some v
    | none => if ciPre ("algorithm".toList) w then some (w.drop 9) else none
  else none

def lookD (s : Str) : Bool := s.isEmpty || ("##".toList).isPrefixOf s

def pseudoHeadingD (text : Str) : Option Str :=
  firstScan (fun s => (headD s).bind (lazyGroup lookD)) text

/-- Head of strategy (e): `Steps:|Algorithm steps:|Approach:` in source
order (the alternatives are mutually exclusive at any one position). -/
def headE (s : Str) : Option Str :=
  if ciPre ("steps:".toList) s then some (s.drop 6)
  else if ciPre ("algorithm steps:".toList) s then some (s.drop 16)
  else if ciPre ("approach:".toList) s then some (s.drop 9)
  else none

def lookE (s : Str) : Bool :=
  match s with
  | '\n' :: t => lookScanC t
  | _ => false

def pseudoHeadingE (text : Str) : Option Str :=
  firstScan (fun s => (headE s).bind (lazyGroup lookE)) text

/-! Strategy (f): `text.match(/(?:^|\n)\s*(?:\d+\.\s+)(.+)/g)` collects the
FULL matches (with `/g`, `match` returns whole-match strings), which are
then joined with `'\n'` and trimmed.  Compiled to an automaton like the
bullet matcher, but keeping the whole consumed span.  The mandatory `\s+`
after the dot backtracks only when the string ends inside the whitespace
run; `stepFinal` reproduces that case. -/

inductive PState where
  | seek
  | ws1 (acc : Str)
  | dig (acc : Str)
  | postdot (acc : Str) (ws : Str)
  | cont (acc : Str)
  deriving DecidableEq

/-- End-of-string backtracking for `\d+\.\s+(.+)` when the text ends inside
the whitespace run after the dot: the greedy `\s+` gives characters back one
at a time (scanning `ws`, which holds the run reversed) until `(.+)` can take
one non-newline character; everything once given back beyond that character
lies after the match. -/
def stepFinal (acc : Str) : Str → List Str
  | [] => []
  | [_] => []
  | c :: d :: t =>
    if c != '\n' then [acc.reverse ++ (d :: t).reverse ++ [c]]
    else stepFinal acc (d :: t)

def stepGo : PState → Str → List Str
  | st, [] =>
    match st with
    | .cont acc => [acc.reverse]
    | .postdot acc ws => stepFinal acc ws
    | _ => []
  | st, c :: t =>
    match st with
    | .seek => if c == '\n' then stepGo (.ws1 ['\n']) t else stepGo .seek t
    | .ws1 acc =>
        if isWsChar c then stepGo (.ws1 (c :: acc)) t
        else if c.isDigit then stepGo (.dig (c :: acc)) t
        else stepGo .seek t
    | .dig acc =>
        if c.isDigit then stepGo (.dig (c :: acc)) t
        else if c == '.' then stepGo (.postdot (c :: acc) []) t
        else if c == '\n' then stepGo (.ws1 ['\n']) t
        else stepGo .seek t
    | .postdot acc ws =>
        if isWsChar c then stepGo (.postdot acc (c :: ws)) t
        else if ws.isEmpty then stepGo .seek t
        else stepGo (.cont (c :: (ws ++ acc))) t
    | .cont acc =>
        if c == '\n' then acc.reverse :: stepGo (.ws1 ['\n']) t
        else stepGo (.cont (c :: acc)) t

def stepMatches (s : Str) : List Str := stepGo (.ws1 []) s

/-- `Array.prototype.join('\n')`. -/
def joinNL : List Str → Str
  | [] => []
  | [l] => l
  | l :: ls => l ++ '\n' :: joinNL ls

/-- Fenced-block strategy (a): the tag alternatives are tried in source
order; an alternative is committed to only if a closing fence follows. -/
def tryFenceTags : List Str → Str → Option Str
  | [], _ => none
  | tg :: rest, after =>
    if ciPre tg after then
      match splitAtInfix fence ((after.drop tg.length).dropWhile isWsChar) with
      | some q => some q.1
      | none => tryFenceTags rest after
    else tryFenceTags rest after

def pseudoBlockTags : List Str :=
  ["pseudocode".toList, "algorithm".toList, "plaintext".toList, ([] : Str)]

def pseudoBlockA (text : Str) : Option Str :=
  match splitAtInfix fence text with
  | none => none
  | some p => tryFenceTags pseudoBlockTags p.2

/-- Fenced-block strategy (b): ``` `\s*([\s\S]*?)` ``` (no tag skipping). -/
def pseudoBlockB (text : Str) : Option Str :=
  match splitAtInfix fence text with
  | none => none
  | some p => (splitAtInfix fence (p.2.dropWhile isWsChar)).map (fun q => q.1)

/-- `match && match[1].trim().length > 0` — keep only non-empty trims. -/
def nonEmptyTrim (o : Option Str) : Option Str :=
  match o with
  | some g => let t := trimStr g; if t.isEmpty then none else some t
  | none => none

/-- `ProcessingHelper.extractPseudoCode`. -/
def extractPseudoCode (text : Str) : Str :=
  match nonEmptyTrim (pseudoBlockA text) with
  | some g => g
  | none =>
  match nonEmptyTrim (pseudoBlockB text) with
  | some g => g
  | none =>
  match nonEmptyTrim (pseudoHeadingC text) with
  | some g => g
  | none =>
  match nonEmptyTrim (pseudoHeadingD text) with
  | some g => g
  | none =>
  match nonEmptyTrim (pseudoHeadingE text) with
  | some g => g
  | none =>
    let steps := stepMatches text
    if steps.isEmpty then [] else trimStr (joinNL steps)

/-! ### extractComplexity (ProcessingHelper.extractComplexity)

Source regexes:
  time:  `/(?:Time[- ]?[Cc]omplexity:?|Time:?)\s*([^\n]+(?:\n[^\n]+)*?)(?=\n\s*(?:Space|$))/i`
  space: `/(?:Space[- ]?[Cc]omplexity:?|Space:?)\s*([^\n]+(?:\n[^\n]+)*?)(?=\n|$)/i`
then `formatComplexity(match?.[1] || null)` for each. -/

/-- Both colon variants of an optional `:?`, greedy variant first. -/
def colonCands (v : Str) : List Str :=
  match v with
  | ':' :: u => [u, ':' :: u]
  | _ => [v]

/-- `Time[- ]?[Cc]omplexity` under `/i`; suffix after the match. -/
def timeCompHead (s : Str) : Option Str :=
  if ciPre ("time".toList) s then
    let u := s.drop 4
    match u with
    | c :: u2 =>
      if (c == '-' || c == ' ') && ciPre ("complexity".toList) u2 then some (u2.drop 10)
      else if ciPre ("complexity".toList) u then some (u.drop 10)
      else none
    | [] => none
  else none

/-- `Space[- ]?[Cc]omplexity` under `/i`; suffix after the match. -/
def spaceCompHead (s : Str) : Option Str :=
  if ciPre ("space".toList) s then
    let u := s.drop 5
    match u with
    | c :: u2 =>
      if (c == '-' || c == ' ') && ciPre ("complexity".toList) u2 then some (u2.drop 10)
      else if ciPre ("complexity".toList) u then some (u.drop 10)
      else none
    | [] => none
  else none

/-- All head end candidates for the time label, in backtracking priority
order (long alternative before short, colon consumed before skipped). -/
def timeHeadCands (s : Str) : List Str :=
  if ciPre ("time".toList) s then
    (match timeCompHead s with
     | some v => colonCands v
     | none => []) ++ colonCands (s.drop 4)
  else []

def spaceHeadCands (s : Str) : List Str :=
  if ciPre ("space".toList) s then
    (match spaceCompHead s with
     | some v => colonCands v
     | none => []) ++ colonCands (s.drop 5)
  else []

/-- Scan of `\s*(?:Space|$)` inside the time lookahead (`/i`). -/
def timeLookScan : Str → Bool
  | [] => true
  | c :: t =>
    if ciPre ("space".toList) (c :: t) then true
    else if isWsChar c then timeLookScan t
    else false

inductive TState where
  | inLine    -- at the newline (or end) terminating the current last line
  | needChar  -- just entered a continuation line: `[^\n]+` needs a character
  deriving DecidableEq

/-- The lazy `(?:\n[^\n]+)*?` extension with lookahead `(?=\n\s*L)`: at each
line end, first try the lookahead; otherwise extend by one more full line
(which must be non-empty). -/
def timeExtGo (lookF : Str → Bool) : TState → Str → Str → Option Str
  | _, _, [] => none
  | st, acc, c :: t =>
    match st with
    | .inLine =>
        if c == '\n' then
          if lookF t then some acc.reverse
          else timeExtGo lookF .needChar ('\n' :: acc) t
        else timeExtGo lookF .inLine (c :: acc) t
    | .needChar =>
        if c == '\n' then none
        else timeExtGo lookF .inLine (c :: acc) t

/-- Tail `\s*([^\n]+(?:\n[^\n]+)*?)(?=\n\s*(?:Space|$))` after a time head,
trying whitespace-skip depths from `j` (maximal) down to `0`. -/
def compTailTimeK : Nat → Str → Option Str
  | j, u =>
    let v := u.drop j
    let seg := v.takeWhile (fun c => c != '\n')
    let res :=
      if seg.isEmpty then none
      else timeExtGo timeLookScan .inLine seg.reverse (v.drop seg.length)
    match res with
    | some g => some g
    | none => match j with | 0 => none | Nat.succ j2 => compTailTimeK j2 u

/-- Tail `\s*([^\n]+(?:\n[^\n]+)*?)(?=\n|$)` after a space head: the greedy
first segment always ends at a newline or the end of the string, where the
lookahead `(?=\n|$)` holds, so the lazy extension always takes zero steps. -/
def compTailSpaceK : Nat → Str → Option Str
  | j, u =>
    let v := u.drop j
    let seg := v.takeWhile (fun c => c != '\n')
    if seg.isEmpty then
      match j with | 0 => none | Nat.succ j2 => compTailSpaceK j2 u
    else some seg

def tryCandsWith (tail : Str → Option Str) : List Str → Option Str
  | [] => none
  | u :: rest =>
    match tail u with
    | some g => some g
    | none => tryCandsWith tail rest

def timeTail (u : Str) : Option Str := compTailTimeK ((u.takeWhile isWsChar).length) u

def spaceTail (u : Str) : Option Str := compTailSpaceK ((u.takeWhile isWsChar).length) u

def timeMatch (text : Str) : Option Str :=
  firstScan (fun s => tryCandsWith timeTail (timeHeadCands s)) text

def spaceMatch (text : Str) : Option Str :=
  firstScan (fun s => tryCandsWith spaceTail (spaceHeadCands s)) text

/-- First match of `/O\([^)]+\)/i` at the head of a suffix. -/
def bigOAt : Str → Option Str
  | [] => none
  | o :: r =>
    if lowChar o == 'o' then
      match r with
      | p :: r2 =>
        if p == '(' then
          let seg := r2.takeWhile (fun c => c != ')')
          if seg.isEmpty then none
          else
            match r2.drop seg.length with
            | ')' :: _ => some (o :: '(' :: (seg ++ [')']))
            | _ => none
        else none
      | [] => none
    else none

def bigOFind (s : Str) : Option Str := firstScan bigOAt s

/-- Case-sensitive `String.prototype.includes`. -/
def hasInfixCS (pat s : Str) : Bool := (splitAtInfix pat s).isSome

/-- `String.prototype.replace` with a plain-string pattern: remove the first
occurrence. -/
def replaceFirst (pat s : Str) : Str :=
  match splitAtInfix pat s with
  | some p => p.1 ++ p.2
  | none => s

def defaultComplexity : Str := "O(n) - Complexity not available".toList

/-- The `formatComplexity` closure inside `extractComplexity`. -/
def formatComplexity : Option Str → Str
  | none => defaultComplexity
  | some c =>
    match bigOFind c with
    | some nota =>
        if !(hasInfixCS ['-'] c) && !(hasInfixCS ("because".toList) c) then
          nota ++ (" - ".toList) ++ trimStr (replaceFirst nota c)
        else trimStr c
    | none => ("O(n) - ".toList) ++ trimStr c

/-- JS `match?.[1] || null`: an empty capture is falsy and becomes null. -/
def orNullStr : Option Str → Option Str
  | some [] => none
  | x => x

/-- `ProcessingHelper.extractComplexity`. -/
def extractComplexity (text : Str) : Str × Str :=
  (formatComplexity (orNullStr (timeMatch text)),
   formatComplexity (orNullStr (spaceMatch text)))

/-! ### Data model: providers, configuration, problem info, events -/

inductive Provider where
  | openai | gemini | anthropic
  deriving DecidableEq

def providerName : Provider → Str
  | .openai => "openai".toList
  | .gemini => "gemini".toList
  | .anthropic => "anthropic".toList

structure ProblemInfo where
  problem_statement : Str
  constraints : Option Str
  example_input : Option Str
  example_output : Option Str
  deriving DecidableEq

structure AppConfig where
  openaiKey : Str
  geminiKey : Str
  anthropicKey : Str
  apiProvider : Provider
  deriving DecidableEq

def keyFor (cfg : AppConfig) : Provider → Str
  | .openai => cfg.openaiKey
  | .gemini => cfg.geminiKey
  | .anthropic => cfg.anthropicKey

/-- The three client fields of `ProcessingHelper`; a constructed client is
modelled by the credential it was built with. -/
structure ClientState where
  openaiClient : Option Str
  geminiApiKey : Option Str
  anthropicClient : Option Str
  deriving DecidableEq

/-- Events sent to the renderer over `mainWindow.webContents.send`. -/
inductive Event where
  | status (msg : Str)
  | initialStart
  | noScreenshots
  | apiKeyInvalid
  | problemExtracted (pi : ProblemInfo)
  | edgeCasesExtracted (thoughts : List Str)
  | solutionThinking (thoughts edgeCases solutionThoughts : List Str)
  | approachDeveloped (thoughts : List Str) (pseudoCode : Str)
  | codeGenerated (thoughts : List Str) (code : Str)
  | solutionSuccess (code : Str) (thoughts : List Str) (time space : Str)
  | initialSolutionError (msg : Str)
  | debugStart
  | debugSuccess
  | debugError (msg : Str)
  deriving DecidableEq

/-! ### initializeAIClient (ProcessingHelper.initializeAIClient)

The method logs, in order, `console.log("config.apiProvider", ...)`,
`console.log("config.apiKeys", ...)` and `console.log("apiKey", apiKey)`
before branching on the provider.  `console.log` joins its arguments with a
space; the rendering of the `apiKeys` object is abstracted to the
concatenation of the three key strings (what matters for the theorems is
only that the raw key values appear in the log text).  The truthiness test
`if (apiKey)` is false exactly on the empty string. -/
def initAIClient (cfg : AppConfig) : ClientState × List Str :=
  let key := keyFor cfg cfg.apiProvider
  let pre : List Str :=
    [("config.apiProvider ".toList) ++ providerName cfg.apiProvider,
     ("config.apiKeys ".toList) ++ cfg.openaiKey ++ (" ".toList) ++ cfg.geminiKey
       ++ (" ".toList) ++ cfg.anthropicKey,
     ("apiKey ".toList) ++ key]
  match cfg.apiProvider with
  | .openai =>
    if !key.isEmpty then
      (⟨some key, none, none⟩, pre ++ [("OpenAI client initialized successfully".toList)])
    else
      (⟨none, none, none⟩, pre ++ [("No API key available, OpenAI client not initialized".toList)])
  | .gemini =>
    if !key.isEmpty then
      (⟨none, some key, none⟩, pre ++ [("Gemini API key set successfully".toList)])
    else
      (⟨none, none, none⟩, pre ++ [("No API key available, Gemini client not initialized".toList)])
  | .anthropic =>
    if !key.isEmpty then
      (⟨none, none, some key⟩, pre ++ [("Anthropic client initialized successfully".toList)])
    else
      (⟨none, none, none⟩, pre ++ [("No API key available, Anthropic client not initialized".toList)])

/-! ### cancelOngoingRequests (ProcessingHelper.cancelOngoingRequests) -/

structure CancelState where
  procCtrl : Option Unit        -- currentProcessingAbortController
  extraCtrl : Option Unit       -- currentExtraProcessingAbortController
  problemInfo : Option ProblemInfo
  hasDebugged : Bool
  mainWindow : Bool
  mainWindowDestroyed : Bool
  deriving DecidableEq

structure CancelOut where
  state : CancelState
  abortedProc : Bool            -- currentProcessingAbortController.abort() was called
  abortedExtra : Bool           -- currentExtraProcessingAbortController.abort() was called
  events : List Event
  deriving DecidableEq

/-- `ProcessingHelper.cancelOngoingRequests`: aborts and nulls whichever
controllers exist, unconditionally resets `hasDebugged` and the stored
problem info, and sends `NO_SCREENSHOTS` when something was aborted and the
window is alive. -/
def cancelOngoingRequests (s : CancelState) : CancelOut :=
  let ap := s.procCtrl.isSome
  let ae := s.extraCtrl.isSome
  { state := ⟨none, none, none, false, s.mainWindow, s.mainWindowDestroyed⟩,
    abortedProc := ap,
    abortedExtra := ae,
    events :=
      if (ap || ae) && s.mainWindow && !s.mainWindowDestroyed
      then [Event.noScreenshots] else [] }

/-! ### The pipeline (processScreenshots / processScreenshotsHelper /
generateSolutionsHelper)

Provider calls are abstracted by an oracle from stage tags to outcomes: a
response text, an empty Gemini candidate list, or a thrown error.  An error
is modelled by the fields the catch blocks inspect: `axios.isCancel(error)`,
`error.response?.status`, `error.status` and `error.message`. -/

structure ErrShape where
  isAxiosCancel : Bool
  responseStatus : Option Nat
  status : Option Nat
  message : Option Str
  deriving DecidableEq

inductive StageTag where
  | extract | edge | think | approach | code | complexity | debug
  deriving DecidableEq

inductive CallOut where
  | ok (text : Str)
  | okEmpty
  | err (e : ErrShape)
  deriving DecidableEq

/-- Record of an actually-dispatched provider call; the complexity call
also records the code string interpolated into its prompt. -/
inductive CallRec where
  | stage (t : StageTag)
  | complexityWith (code : Str)
  deriving DecidableEq

inductive RunResult (α : Type) where
  | ok (data : α)
  | fail (error : Str)
  deriving DecidableEq

structure FinalResponse where
  code : Str
  thoughts : List Str
  time_complexity : Str
  space_complexity : Str
  deriving DecidableEq

structure GenInputs where
  problemInfo : Option ProblemInfo
  provider : Provider
  openaiOk : Bool
  geminiOk : Bool
  anthropicOk : Bool
  mainWindow : Bool
  oracle : StageTag → CallOut

/-- Every stage of `generateSolutionsHelper` guards its three provider
branches the same way: the branch for the configured provider runs only if
the matching client field is non-null; otherwise no branch runs at all and
the stage is silently skipped. -/
def branchFires (inp : GenInputs) : Bool :=
  match inp.provider with
  | .openai => inp.openaiOk
  | .gemini => inp.geminiOk
  | .anthropic => inp.anthropicOk

def cancelMsg : Str := "Processing was canceled by the user.".toList

def msgOrDefault (m : Option Str) (d : Str) : Str :=
  match m with
  | some s => if s.isEmpty then d else s
  | none => d

/-- The catch block of `generateSolutionsHelper` (lines 1339-1361):
`axios.isCancel`, then `error.response?.status` 401 / 429, then
`error.message || "Failed to generate solution"`. -/
def classifyGenError (e : ErrShape) : Str :=
  if e.isAxiosCancel then cancelMsg
  else if e.responseStatus == some 401 then
    "Invalid OpenAI API key. Please check your settings.".toList
  else if e.responseStatus == some 429 then
    "OpenAI API rate limit exceeded or insufficient credits. Please try again later.".toList
  else msgOrDefault e.message ("Failed to generate solution".toList)

/-- The catch block of `processScreenshotsHelper` (lines 683-715): like the
one above but with a 500 case and a different default message. -/
def classifyProcessError (e : ErrShape) : Str :=
  if e.isAxiosCancel then cancelMsg
  else if e.responseStatus == some 401 then
    "Invalid OpenAI API key. Please check your settings.".toList
  else if e.responseStatus == some 429 then
    "OpenAI API rate limit exceeded or insufficient credits. Please try again later.".toList
  else if e.responseStatus == some 500 then
    "OpenAI server error. Please try again later.".toList
  else msgOrDefault e.message ("Failed to process screenshots. Please try again.".toList)

/-- Outcome of one guarded stage: `ok (some t)` when the branch ran and
yielded a text, `ok none` when no branch ran (client/provider mismatch) or
Gemini returned no candidates, `fail` when the call threw. -/
def stageOut (inp : GenInputs) (tag : StageTag) : RunResult (Option Str) :=
  if branchFires inp then
    match inp.oracle tag with
    | .ok t => .ok (some t)
    | .okEmpty => .ok none
    | .err e => .fail (classifyGenError e)
  else .ok none

def stageCalls (inp : GenInputs) (tag : StageTag) : List CallRec :=
  if branchFires inp then [.stage tag] else []

def statusIf (mw : Bool) (m : Str) : List Event := if mw then [Event.status m] else []

def eventIf (mw : Bool) (e : Event) : List Event := if mw then [e] else []

structure GenOut where
  events : List Event
  calls : List CallRec
  result : RunResult FinalResponse

/-- `ProcessingHelper.generateSolutionsHelper`, stage by stage in source
order.  Events accumulated before a thrown error remain emitted. -/
def genSolutions (inp : GenInputs) : GenOut :=
  match inp.problemInfo with
  | none => ⟨[], [], .fail ("No problem info available".toList)⟩
  | some _ =>
    let mw := inp.mainWindow
    let evA := statusIf mw ("Analyzing edge cases...".toList)
    match stageOut inp .edge with
    | .fail m => ⟨evA, stageCalls inp .edge, .fail m⟩
    | .ok o1 =>
      let edgeCases := match o1 with | some t => extractBulletPoints t | none => []
      let evB := evA ++ eventIf mw (.edgeCasesExtracted edgeCases)
                     ++ statusIf mw ("Developing solution insights...".toList)
      let c2 := stageCalls inp .edge ++ stageCalls inp .think
      match stageOut inp .think with
      | .fail m => ⟨evB, c2, .fail m⟩
      | .ok o2 =>
        let solutionThoughts := match o2 with | some t => extractBulletPoints t | none => []
        let evC := evB ++ eventIf mw (.solutionThinking solutionThoughts edgeCases solutionThoughts)
                       ++ statusIf mw ("Developing solution approach...".toList)
        let c3 := c2 ++ stageCalls inp .approach
        match stageOut inp .approach with
        | .fail m => ⟨evC, c3, .fail m⟩
        | .ok o3 =>
          let thoughts := match o3 with | some t => extractBulletPoints t | none => []
          let pseudoCode := match o3 with | some t => extractPseudoCode t | none => []
          let allThoughts := edgeCases ++ solutionThoughts ++ thoughts
          let evD := evC ++ eventIf mw (.approachDeveloped thoughts pseudoCode)
                         ++ statusIf mw ("Generating solution code...".toList)
          let c4 := c3 ++ stageCalls inp .code
          match stageOut inp .code with
          | .fail m => ⟨evD, c4, .fail m⟩
          | .ok o4 =>
            let codeStr := match o4 with | some t => extractCodeBlock t | none => []
            let evE := evD ++ eventIf mw (.codeGenerated allThoughts codeStr)
                           ++ statusIf mw ("Analyzing time and space complexity...".toList)
            let c5 := c4 ++ (if branchFires inp then [CallRec.complexityWith codeStr] else [])
            match stageOut inp .complexity with
            | .fail m => ⟨evE, c5, .fail m⟩
            | .ok o5 =>
              let tc := match o5 with | some t => (extractComplexity t).1 | none => []
              let sc := match o5 with | some t => (extractComplexity t).2 | none => []
              let evF := evE ++ eventIf mw (.solutionSuccess codeStr allThoughts tc sc)
              ⟨evF, c5, .ok ⟨codeStr, allThoughts, tc, sc⟩⟩

/-- `responseText.replace(/```json|```/g, '')`: remove every occurrence,
preferring the longer alternative at each position. -/
def stripGo : Nat → Str → Str
  | Nat.succ k, _ :: t => stripGo k t
  | Nat.succ _, [] => []
  | 0, [] => []
  | 0, c :: t =>
    if ("```json".toList).isPrefixOf (c :: t) then stripGo 6 t
    else if fence.isPrefixOf (c :: t) then stripGo 2 t
    else c :: stripGo 0 t

def stripJsonFences (s : Str) : Str := stripGo 0 s

structure ProcInputs where
  provider : Provider
  openaiOk : Bool
  geminiOk : Bool
  anthropicOk : Bool
  mainWindow : Bool
  oracle : StageTag → CallOut
  parseProblem : Str → Option ProblemInfo   -- JSON.parse + field typing (a platform builtin)

def toGenInputs (inp : ProcInputs) (pi : Option ProblemInfo) : GenInputs :=
  ⟨pi, inp.provider, inp.openaiOk, inp.geminiOk, inp.anthropicOk, inp.mainWindow, inp.oracle⟩

def clientOkFor (inp : ProcInputs) : Bool :=
  match inp.provider with
  | .openai => inp.openaiOk
  | .gemini => inp.geminiOk
  | .anthropic => inp.anthropicOk

inductive ExtractOutcome where
  | failure (msg : Str)      -- the helper returns { success: false, error }
  | thrown (e : ErrShape)    -- an exception reaches the outer catch
  | extracted (pi : ProblemInfo)

def geminiExtractFail : Str :=
  "Failed to process with Gemini API. Please check your API key or try again later.".toList

def anthropicExtractFail : Str :=
  "Failed to process with Anthropic API. Please check your API key or try again later.".toList

/-- Stage 1 (problem extraction) of `processScreenshotsHelper`.  Note the
asymmetry taken from the source: the OpenAI call happens outside the inner
try (so its errors reach the outer catch), while the whole Gemini and
Anthropic interactions, including response decoding, sit inside per-provider
try/catch blocks that turn every failure — including an aborted axios call —
into the provider-specific failure message. -/
def runExtraction (inp : ProcInputs) : ExtractOutcome :=
  match inp.provider with
  | .openai =>
    if !inp.openaiOk then
      .failure ("OpenAI API key not configured or invalid. Please check your settings.".toList)
    else
      match inp.oracle .extract with
      | .err e => .thrown e
      | .okEmpty => .thrown ⟨false, none, none, none⟩  -- null content: a TypeError escapes to the outer catch
      | .ok t =>
        match inp.parseProblem (trimStr (stripJsonFences t)) with
        | some pi => .extracted pi
        | none => .failure ("Failed to parse problem information. Please try again or use clearer screenshots.".toList)
  | .gemini =>
    if !inp.geminiOk then
      .failure ("Gemini API key not configured. Please check your settings.".toList)
    else
      match inp.oracle .extract with
      | .err _ => .failure geminiExtractFail
      | .okEmpty => .failure geminiExtractFail
      | .ok t =>
        match inp.parseProblem (trimStr (stripJsonFences t)) with
        | some pi => .extracted pi
        | none => .failure geminiExtractFail
  | .anthropic =>
    if !inp.anthropicOk then
      .failure ("Anthropic API key not configured. Please check your settings.".toList)
    else
      match inp.oracle .extract with
      | .err e =>
        if e.status == some 429 then
          .failure ("Claude API rate limit exceeded. Please wait a few minutes before trying again.".toList)
        else if e.status == some 413
            || (match e.message with | some m => hasInfixCS ("token".toList) m | none => false) then
          .failure ("Your screenshots contain too much information for Claude to process. Switch to OpenAI or Gemini in settings which can handle larger inputs.".toList)
        else .failure anthropicExtractFail
      | .okEmpty => .failure anthropicExtractFail
      | .ok t =>
        match inp.parseProblem (trimStr (stripJsonFences t)) with
        | some pi => .extracted pi
        | none => .failure anthropicExtractFail  -- the JSON SyntaxError is caught by the same inner catch

def extractCalls (inp : ProcInputs) : List CallRec :=
  if clientOkFor inp then [.stage .extract] else []

structure ProcOut where
  events : List Event
  calls : List CallRec
  result : RunResult FinalResponse

/-- `ProcessingHelper.processScreenshotsHelper`. -/
def procHelper (inp : ProcInputs) : ProcOut :=
  let mw := inp.mainWindow
  let ev0 := statusIf mw ("Analyzing problem from screenshots...".toList)
  match runExtraction inp with
  | .failure m => ⟨ev0, extractCalls inp, .fail m⟩
  | .thrown e => ⟨ev0, extractCalls inp, .fail (classifyProcessError e)⟩
  | .extracted pi =>
    let ev1 := ev0 ++ statusIf mw ("Problem analyzed successfully. Preparing to generate solution...".toList)
                   ++ eventIf mw (.problemExtracted pi)
    if mw then
      let g := genSolutions (toGenInputs inp (some pi))
      match g.result with
      | .ok data =>
        ⟨ev1 ++ g.events ++ statusIf mw ("Solution generated successfully".toList),
         extractCalls inp ++ g.calls, .ok data⟩
      | .fail m =>
        -- `throw new Error(msg || "Failed to generate solutions")`, re-caught by
        -- the outer catch as a plain Error: not an axios cancel, no response
        -- status, so the generic branch returns its message.
        ⟨ev1 ++ g.events, extractCalls inp ++ g.calls,
         .fail (if m.isEmpty then ("Failed to generate solutions".toList) else m)⟩
    else
      ⟨ev1, extractCalls inp, .fail ("Failed to process screenshots".toList)⟩

structure ScreenInputs where
  proc : ProcInputs
  hasScreenshots : Bool

/-- `result.error?.includes("API Key") || includes("OpenAI") || includes("Gemini")`. -/
def errLooksLikeKeyProblem (s : Str) : Bool :=
  hasInfixCS ("API Key".toList) s || hasInfixCS ("OpenAI".toList) s
    || hasInfixCS ("Gemini".toList) s

/-- The `view == "queue"` path of `ProcessingHelper.processScreenshots`
(the initial-solve flow), assuming a live main window: verify the client,
send `INITIAL_START`, check the queue, run the helper, then on success send
`SOLUTION_SUCCESS` once more with `result.data`. -/
def processScreenshotsQueue (inp : ScreenInputs) : List Event :=
  let p := inp.proc
  if !(clientOkFor p) then [Event.apiKeyInvalid]
  else if !inp.hasScreenshots then [Event.initialStart, Event.noScreenshots]
  else
    let r := procHelper p
    Event.initialStart :: (r.events ++
      (match r.result with
       | .ok data =>
         [Event.solutionSuccess data.code data.thoughts data.time_complexity data.space_complexity]
       | .fail m =>
         if errLooksLikeKeyProblem m then [Event.apiKeyInvalid]
         else [Event.initialSolutionError m]))

/-- The stage-indexed events of C4, in their claimed order. -/
def stageEventTag : Event → Option Nat
  | .problemExtracted _ => some 0
  | .edgeCasesExtracted _ => some 1
  | .solutionThinking _ _ _ => some 2
  | .approachDeveloped _ _ => some 3
  | .codeGenerated _ _ => some 4
  | .solutionSuccess _ _ _ _ => some 5
  | _ => none

/-! ### Claim-side notions for the extractor claims -/

/-- The backtick character (written by code point). -/
def btk : Char := '\x60'

/-- Two backticks: appending this to a candidate prefix covers every way a
fence occurrence could start strictly before a given position. -/
def ff2 : Str := [btk, btk]

/-- Claim-side reading of "contains a triple-backtick fenced block": an
opening fence with a closing fence somewhere after it. -/
def hasFencedBlockB (s : Str) : Bool :=
  match splitAtInfix fence s with
  | none => false
  | some p => (splitAtInfix fence p.2).isSome

/-! ### Concrete instances used by witnesses and counterexamples -/

def piExample : ProblemInfo := ⟨"Reverse a string".toList, none, none, none⟩

/-- A mock provider returning canned, well-formed text for every stage. -/
def cannedOracle : StageTag → CallOut
  | .extract => .ok ("problem json".toList)
  | .edge => .ok ("- empty input".toList)
  | .think => .ok ("- use two pointers".toList)
  | .approach => .ok ("1. swap ends\n```\nfor i in range\n```".toList)
  | .code => .ok ("```python\nprint(s)\n```".toList)
  | .complexity => .ok ("Time Complexity: O(n) - linear scan\nSpace Complexity: O(1) - constant\n".toList)
  | .debug => .ok ([])

def parseConst : Str → Option ProblemInfo := fun _ => some piExample

def procExample : ProcInputs := ⟨.openai, true, true, true, true, cannedOracle, parseConst⟩

/-- Oracle whose Stage-4 (code) response contains an empty fenced block. -/
def c3oracle : StageTag → CallOut
  | .code => .ok ("``````".toList)
  | t => cannedOracle t

def c3inputs : GenInputs := ⟨some piExample, .openai, true, true, true, true, c3oracle⟩

/-- The shape axios gives an aborted request: `axios.isCancel` is true. -/
def axiosCancelErr : ErrShape := ⟨true, none, none, some ("canceled".toList)⟩

/-- The shape the OpenAI/Anthropic SDKs give an aborted request
(`APIUserAbortError`): a plain error, not recognised by `axios.isCancel`. -/
def sdkAbortErr : ErrShape := ⟨false, none, none, some ("Request was aborted.".toList)⟩

/-- A run whose Stage-1 Gemini call throws because the token was aborted. -/
def c9oracle : StageTag → CallOut
  | .extract => .err axiosCancelErr
  | t => cannedOracle t

def c9inputs : ProcInputs := ⟨.gemini, false, true, false, true, c9oracle, parseConst⟩

/-- A state with both runs in flight and a stored problem. -/
def bothLiveState : CancelState := ⟨some (), some (), some piExample, true, true, false⟩

def idleState : CancelState := ⟨none, none, some piExample, true, true, false⟩

def cfgWithKey : AppConfig := ⟨"sk-mysecretkey12345".toList, [], [], .openai⟩

def cfgWithOtherKey : AppConfig := ⟨"sk-othersecret99999".toList, [], [], .openai⟩

/-- Claim-side: parse a list marker at the head of a line: `-`, `*`, `•`,
or one or more digits followed by a period; returns the rest of the line. -/
def markerSplit : Str → Option Str
  | [] => none
  | c :: t =>
    if isMarkerChar c then some t
    else if c.isDigit then
      match (c :: t).dropWhile Char.isDigit with
      | '.' :: u => some u
      | _ => none
    else none

/-- Claim-side: a line "begins (after optional leading whitespace) with a
list marker"; the bullet's raw trailing content is the rest of that line
from its first non-whitespace character. -/
def lineBulletRaw (L : Str) : Option Str :=
  match markerSplit (L.dropWhile isWsChar) with
  | some rest => some (rest.dropWhile isWsChar)
  | none => none

def timeLabel : Str := "Time Complexity: ".toList

def spaceLabel : Str := "Space Complexity: ".toList

/-- A canonical labelled complexity response: a labelled time line, then a
labelled space line, each newline-terminated. -/
def labeledComplexityText (t s : Str) : Str :=
  timeLabel ++ t ++ ('\n' :: (spaceLabel ++ (s ++ ['\n'])))

-- sanity checks (kept as compiled facts about the embedding)
example : extractBulletPoints ("- a\n- b".toList) = ["a".toList, "b".toList] := by decide
example : extractBulletPoints ("-\nx".toList) = ["x".toList] := by decide
example : extractBulletPoints ("1.5x speedup".toList) = ["5x speedup".toList] := by decide
example : extractBulletPoints ("One. Two. Three".toList)
    = ["One".toList, "Two".toList, "Three".toList] := by decide
example : extractCodeBlock ("```python\ncode\n```".toList) = "code".toList := by decide
example : extractCodeBlock ("no fence at all".toList) = "no fence at all".toList := by decide
example : extractCodeBlock ("```c++\nx\n```".toList) = "++\nx".toList := by decide
example : extractCodeBlock ("``````".toList) = [] := by decide
example : extractPseudoCode ("1. do it".toList) = "1. do it".toList := by decide
example : extractPseudoCode ("hello world".toList) = [] := by decide
example : extractPseudoCode ("Algorithm: do x\n".toList) = "do x".toList := by decide
example : extractPseudoCode ("```\nloop\n```".toList) = "loop".toList := by decide
example :
    extractComplexity ("Time Complexity: O(n log n) because of sorting\nSpace Complexity: O(1)".toList)
      = ("O(n log n) because of sorting".toList, "O(1) - ".toList) := by decide
example :
    extractComplexity ("Time: O(n) because sorting".toList)
      = (defaultComplexity, defaultComplexity) := by decide

/-! ## Claim theorems -/

/-- C1, counterexample: the claim says cancelling while the initial-solve
run is in flight leaves the debug run's controller un-aborted and its
context unchanged.  In the state where both runs are live with a stored
problem, one call to `cancelOngoingRequests` aborts the debug (extra)
controller as well and clears the shared stored `ProblemInfo`. -/
theorem c1_counterexample :
    (cancelOngoingRequests bothLiveState).abortedExtra = true ∧
    bothLiveState.problemInfo = some piExample ∧
    (cancelOngoingRequests bothLiveState).state.problemInfo = none := by
  decide

/-- C1, amended: cancellation is global, not per run.  For every state,
`cancelOngoingRequests` aborts exactly the controllers that were live
(both runs at once when both are in flight), nulls both controller fields,
clears the single shared stored `ProblemInfo`, and resets the has-debugged
flag; there is no per-run isolation of token or context. -/
theorem c1_amended (s : CancelState) :
    (cancelOngoingRequests s).abortedProc = s.procCtrl.isSome ∧
    (cancelOngoingRequests s).abortedExtra = s.extraCtrl.isSome ∧
    (cancelOngoingRequests s).state.procCtrl = none ∧
    (cancelOngoingRequests s).state.extraCtrl = none ∧
    (cancelOngoingRequests s).state.problemInfo = none ∧
    (cancelOngoingRequests s).state.hasDebugged = false := by
  refine ⟨rfl, rfl, rfl, rfl, rfl, rfl⟩

/-- C2, code bug: `initializeAIClient` logs `console.log("apiKey", apiKey)`
(and the whole `apiKeys` map), so the log output contains the raw
credential and differs between two configurations that differ only in the
credential — the claim (and the spec) say credential values never appear
in any logged string. -/
theorem c2_bug :
    ((initAIClient cfgWithKey).2.any (fun l => hasInfixCS cfgWithKey.openaiKey l)) = true ∧
    (initAIClient cfgWithKey).2 ≠ (initAIClient cfgWithOtherKey).2 := by
  decide

/-- C3, counterexample: with a Stage-4 response whose fenced block is empty,
the extracted code is the empty string, yet the run does not short-circuit:
Stage 5 (complexity) is still dispatched, with the empty string interpolated
into its prompt — the claim says Stage 5 always receives non-empty code. -/
theorem c3_counterexample :
    (genSolutions c3inputs).calls
      = [.stage .edge, .stage .think, .stage .approach, .stage .code,
         .complexityWith []] := by
  decide

/-- C3, amended: `code` is populated only by Stage 4 and the complexity
fields only by Stage 5, but there is no short-circuit: whenever the five
stage calls succeed, Stage 5 is dispatched unconditionally and its input is
exactly whatever Stage 4's extraction produced — possibly the empty
string. -/
theorem c3_amended (inp : GenInputs) (pi : ProblemInfo)
    (t1 t2 t3 t4 t5 : Str)
    (hpi : inp.problemInfo = some pi)
    (hb : branchFires inp = true)
    (h1 : inp.oracle .edge = .ok t1)
    (h2 : inp.oracle .think = .ok t2)
    (h3 : inp.oracle .approach = .ok t3)
    (h4 : inp.oracle .code = .ok t4)
    (h5 : inp.oracle .complexity = .ok t5) :
    (genSolutions inp).calls
      = [.stage .edge, .stage .think, .stage .approach, .stage .code,
         .complexityWith (extractCodeBlock t4)] ∧
    (genSolutions inp).result
      = .ok ⟨extractCodeBlock t4,
             extractBulletPoints t1 ++ extractBulletPoints t2 ++ extractBulletPoints t3,
             (extractComplexity t5).1, (extractComplexity t5).2⟩ := by
  simp only [genSolutions, stageOut, stageCalls, hpi, hb, h1, h2, h3, h4, h5,
    if_true, List.append_nil, List.nil_append]
  constructor <;> trivial

/-- C3, witness for the amended theorem. -/
theorem c3_amended_witness :
    (genSolutions c3inputs).calls
        = [.stage .edge, .stage .think, .stage .approach, .stage .code,
           .complexityWith (extractCodeBlock ("``````".toList))] ∧
    (genSolutions c3inputs).result
        = .ok ⟨extractCodeBlock ("``````".toList),
               extractBulletPoints ("- empty input".toList)
                 ++ extractBulletPoints ("- use two pointers".toList)
                 ++ extractBulletPoints ("1. swap ends\n```\nfor i in range\n```".toList),
               (extractComplexity ("Time Complexity: O(n) - linear scan\nSpace Complexity: O(1) - constant\n".toList)).1,
               (extractComplexity ("Time Complexity: O(n) - linear scan\nSpace Complexity: O(1) - constant\n".toList)).2⟩ :=
  c3_amended c3inputs piExample _ _ _ _ _ rfl rfl rfl rfl rfl rfl rfl

/-- C4, code bug: on a successful initial-solve run the per-stage events do
come out in stage order, but the final success event is emitted twice: once
at the end of `generateSolutionsHelper` and once more by
`processScreenshots` after the helper returns — although the comment in
`processScreenshotsHelper` notes the event "is already sent".  The trace of
stage-indexed events for a fully successful canned run is
`[0, 1, 2, 3, 4, 5, 5]`: strictly ordered, with stage 5 (solution success)
duplicated. -/
theorem c4_bug :
    ((processScreenshotsQueue ⟨procExample, true⟩).filterMap stageEventTag)
        = [0, 1, 2, 3, 4, 5, 5] ∧
    ((processScreenshotsQueue ⟨procExample, true⟩).filterMap stageEventTag).count 5 = 2 := by
  decide

/-- C9, counterexample: a Stage-1 Gemini call that throws precisely because
the run's token was aborted (the canonical axios cancellation shape,
`axios.isCancel = true`) is swallowed by the per-provider catch and
reported as the generic Gemini failure message, not as the
"canceled by the user" outcome the claim requires. -/
theorem c9_counterexample :
    axiosCancelErr.isAxiosCancel = true ∧
    (procHelper c9inputs).result = .fail geminiExtractFail ∧
    geminiExtractFail ≠ cancelMsg := by
  decide

/-- C9, amended: an aborted call is classified as the cancelled outcome
exactly when the thrown error has the axios cancellation shape and reaches
a catch that tests `axios.isCancel`: the outer catches of
`generateSolutionsHelper` (stages 2-6) and `processScreenshotsHelper`
classify every such error as "canceled by the user".  (Per the
counterexample, a cancelled Gemini Stage-1 call is instead reported as a
generic Gemini failure, and abort exceptions of other shapes — e.g. the
OpenAI/Anthropic SDK abort error — are classified as generic failures.) -/
theorem c9_amended (e : ErrShape) (h : e.isAxiosCancel = true) :
    classifyGenError e = cancelMsg ∧ classifyProcessError e = cancelMsg := by
  constructor
  · simp [classifyGenError, h]
  · simp [classifyProcessError, h]

/-- C9, witness for the amended theorem. -/
theorem c9_amended_witness :
    classifyGenError axiosCancelErr = cancelMsg ∧
    classifyProcessError axiosCancelErr = cancelMsg :=
  c9_amended axiosCancelErr rfl

/-- C10, confirmed: calling `cancelOngoingRequests` with no operation in
flight (both controllers null) still clears the stored `ProblemInfo`,
resets the has-debugged flag, and emits no event; and in general the
cancellation event is sent only when at least one controller was actually
aborted. -/
theorem c10_frame :
    (∀ s : CancelState, s.procCtrl = none → s.extraCtrl = none →
      (cancelOngoingRequests s).state.problemInfo = none ∧
      (cancelOngoingRequests s).state.hasDebugged = false ∧
      (cancelOngoingRequests s).events = []) ∧
    (∀ s : CancelState, (cancelOngoingRequests s).events ≠ [] →
      s.procCtrl.isSome = true ∨ s.extraCtrl.isSome = true) := by
  constructor
  · intro s h1 h2
    refine ⟨rfl, rfl, ?_⟩
    simp [cancelOngoingRequests, h1, h2]
  · intro s h
    by_cases hp : s.procCtrl.isSome = true
    · exact Or.inl hp
    · right
      by_cases he : s.extraCtrl.isSome = true
      · exact he
      · exfalso
        apply h
        simp only [Bool.not_eq_true] at hp he
        simp [cancelOngoingRequests, hp, he]

/-- C10, witness: both parts of the frame theorem at concrete states. -/
theorem c10_frame_witness :
    ((cancelOngoingRequests idleState).state.problemInfo = none ∧
     (cancelOngoingRequests idleState).state.hasDebugged = false ∧
     (cancelOngoingRequests idleState).events = []) ∧
    (bothLiveState.procCtrl.isSome = true ∨ bothLiveState.extraCtrl.isSome = true) :=
  ⟨c10_frame.1 idleState rfl rfl, c10_frame.2 bothLiveState (by decide)⟩

/-! ### Lemmas about `splitAtInfix` and `dropWhile` -/

theorem fence_eq : fence = [btk, btk, btk] := by decide

theorem splitAtInfix_of_isPrefixOf {pat s : Str} (h : pat.isPrefixOf s = true) :
    splitAtInfix pat s = some ([], s.drop pat.length) := by
  cases s with
  | nil => simp [splitAtInfix, h]
  | cons c t => simp [splitAtInfix, h]

theorem splitAtInfix_none_tail {pat : Str} {c : Char} {t : Str}
    (h : splitAtInfix pat (c :: t) = none) : splitAtInfix pat t = none := by
  unfold splitAtInfix at h
  split at h
  · exact absurd h (by simp)
  · exact Option.map_eq_none'.mp h

theorem splitAtInfix_none_suffix {pat s t : Str}
    (hn : splitAtInfix pat s = none) (hs : t <:+ s) : splitAtInfix pat t = none := by
  induction s with
  | nil => rw [List.suffix_nil.mp hs]; exact hn
  | cons c x ih =>
    rcases List.suffix_cons_iff.mp hs with h | h
    · rw [h]; exact hn
    · exact ih (splitAtInfix_none_tail hn) h

theorem splitAtInfix_eq_none_of_hasInfixCS {pat s : Str}
    (h : hasInfixCS pat s = false) : splitAtInfix pat s = none := by
  cases hs : splitAtInfix pat s with
  | none => rfl
  | some p => rw [hasInfixCS, hs] at h; simp at h

/-- First-occurrence lemma: if no fence occurs in `pre ++ "``"`, then the
first fence occurrence in `pre ++ fence ++ r` is the explicit one. -/
theorem splitAtInfix_append_fence {pre r : Str}
    (h : hasInfixCS fence (pre ++ ff2) = false) :
    splitAtInfix fence (pre ++ fence ++ r) = some (pre, r) := by
  induction pre with
  | nil =>
    simp only [List.nil_append]
    rw [splitAtInfix_of_isPrefixOf (List.isPrefixOf_iff_prefix.mpr (List.prefix_append _ _))]
    rw [List.drop_left' rfl]
  | cons c pre ih =>
    have hnis : ¬ fence.isPrefixOf (c :: (pre ++ fence ++ r)) = true := by
      intro hp
      have h1 : fence <+: c :: (pre ++ fence ++ r) := List.isPrefixOf_iff_prefix.mp hp
      have h2 : c :: (pre ++ ff2) <+: c :: (pre ++ fence ++ r) := by
        refine ⟨[btk] ++ r, ?_⟩
        have hd : ff2 ++ [btk] = fence := by decide
        simp [← hd, List.append_assoc]
      have h3 : fence <+: c :: (pre ++ ff2) :=
        List.prefix_of_prefix_length_le h1 h2 (by simp [fence_eq, ff2])
      have h4 := splitAtInfix_eq_none_of_hasInfixCS h
      rw [show (c :: pre) ++ ff2 = c :: (pre ++ ff2) from by simp] at h4
      rw [splitAtInfix_of_isPrefixOf (List.isPrefixOf_iff_prefix.mpr h3)] at h4
      exact absurd h4 (by simp)
    have hh : hasInfixCS fence (pre ++ ff2) = false := by
      have h5 : splitAtInfix fence (c :: (pre ++ ff2)) = none := by
        have h6 := splitAtInfix_eq_none_of_hasInfixCS h
        simpa using h6
      simp [hasInfixCS, splitAtInfix_none_tail h5]
    rw [show (c :: pre) ++ fence ++ r = c :: (pre ++ fence ++ r) from by simp]
    unfold splitAtInfix
    rw [if_neg hnis, ih hh]
    rfl

theorem dropWhile_append_all {p : Char → Bool} {a b : Str}
    (h : ∀ c ∈ a, p c = true) : (a ++ b).dropWhile p = b.dropWhile p := by
  induction a with
  | nil => rfl
  | cons c a ih =>
    simp only [List.cons_append, List.dropWhile_cons, h c (by simp), if_true]
    exact ih (fun x hx => h x (by simp [hx]))

theorem dropWhile_head_false {p : Char → Bool} {s : Str}
    (h : ∀ c, s.head? = some c → p c = false) : s.dropWhile p = s := by
  cases s with
  | nil => rfl
  | cons c t => simp [List.dropWhile_cons, h c rfl]

theorem dropWhile_append_headFalse {p : Char → Bool} {a b : Str}
    (hb : ∀ c, b.head? = some c → p c = false) :
    (a ++ b).dropWhile p = a.dropWhile p ++ b := by
  induction a with
  | nil => simpa using dropWhile_head_false hb
  | cons c a ih =>
    by_cases hc : p c = true
    · simp [List.dropWhile_cons, hc, ih]
    · simp [List.dropWhile_cons, hc]

theorem dropWhile_idem {p : Char → Bool} (s : Str) :
    (s.dropWhile p).dropWhile p = s.dropWhile p := by
  induction s with
  | nil => rfl
  | cons c t ih =>
    by_cases hc : p c = true
    · simp [List.dropWhile_cons, hc, ih]
    · simp [List.dropWhile_cons, hc]

theorem trimStr_dropWhile (s : Str) : trimStr (s.dropWhile isWsChar) = trimStr s := by
  unfold trimStr
  rw [dropWhile_idem]

theorem fence_head_not_ws (post : Str) :
    ∀ c, (fence ++ post).head? = some c → isWsChar c = false := by
  intro c hc
  rw [fence_eq] at hc
  simp at hc
  rw [← hc]
  decide

theorem fence_head_not_word (post : Str) :
    ∀ c, (fence ++ post).head? = some c → isWordChar c = false := by
  intro c hc
  rw [fence_eq] at hc
  simp at hc
  rw [← hc]
  decide

/-- When no closing fence follows the first opening fence, the code-block
regex fails and the extractor returns the whole trimmed text. -/
theorem extractCodeBlock_no_block {text : Str} (h : hasFencedBlockB text = false) :
    extractCodeBlock text = trimStr text := by
  unfold extractCodeBlock
  cases hs : splitAtInfix fence text with
  | none => rfl
  | some p =>
    have h' : (splitAtInfix fence p.2).isSome = false := by
      rw [hasFencedBlockB, hs] at h
      simpa using h
    have hnone : splitAtInfix fence p.2 = none := by
      cases h2 : splitAtInfix fence p.2 with
      | none => rfl
      | some q => rw [h2] at h'; simp at h'
    have hsuf : (p.2.dropWhile isWordChar).dropWhile isWsChar <:+ p.2 :=
      (List.dropWhile_suffix _).trans (List.dropWhile_suffix _)
    simp only []
    rw [splitAtInfix_none_suffix hnone hsuf]

/-- C5, counterexample: `"```c++\nx\n```"` decomposes as an opening fence
with language tag `c++` (a whitespace-free info string), inner text
`"\nx\n"`, and a closing fence; the claim says the extractor returns the
inner text trimmed (`"x"`) regardless of the language tag, but the regex
only strips the `\w+` part of the tag, so the code returns `"++\nx"`. -/
theorem c5_counterexample :
    ("```c++\nx\n```".toList
        = ([] : Str) ++ fence ++ ("c++".toList) ++ ("\nx\n".toList) ++ fence ++ []) ∧
    (∀ c ∈ ("c++".toList), isWsChar c = false) ∧
    extractCodeBlock ("```c++\nx\n```".toList) = "++\nx".toList ∧
    trimStr ("\nx\n".toList) = "x".toList ∧
    ("++\nx".toList : Str) ≠ "x".toList := by
  refine ⟨by decide, by decide, by decide, by decide, by decide⟩

/-- C5, amended: the extractor returns the first block's inner text trimmed
provided the language tag on the opening fence consists of word characters
(letters, digits, underscore) — a tag containing other characters (such as
`c++`) is only partially stripped.  On texts with no fenced block (no
closing fence after the first opening fence), it returns the whole text
trimmed. -/
theorem c5_amended :
    (∀ pre tag inner post : Str,
      hasInfixCS fence (pre ++ ff2) = false →
      (∀ c ∈ tag, isWordChar c = true) →
      (∀ c, (inner ++ fence ++ post).head? = some c → isWordChar c = false) →
      hasInfixCS fence (inner ++ ff2) = false →
      extractCodeBlock (pre ++ fence ++ tag ++ inner ++ fence ++ post) = trimStr inner) ∧
    (∀ text : Str, hasFencedBlockB text = false → extractCodeBlock text = trimStr text) := by
  constructor
  · intro pre tag inner post h1 h2 h3 h4
    have hsplit :
        pre ++ fence ++ tag ++ inner ++ fence ++ post
          = pre ++ fence ++ (tag ++ (inner ++ fence ++ post)) := by
      simp [List.append_assoc]
    rw [hsplit]
    unfold extractCodeBlock
    rw [splitAtInfix_append_fence h1]
    simp only []
    have htag : (tag ++ (inner ++ fence ++ post)).dropWhile isWordChar
        = inner ++ fence ++ post := by
      rw [dropWhile_append_all h2]
      apply dropWhile_head_false
      intro c hc
      cases inner with
      | nil => exact fence_head_not_word post c (by simpa using hc)
      | cons a t =>
        have ha : a = c := by simpa using hc
        exact ha ▸ h3 a (by simp)
    rw [htag]
    have hws : (inner ++ fence ++ post).dropWhile isWsChar
        = inner.dropWhile isWsChar ++ (fence ++ post) := by
      rw [show inner ++ fence ++ post = inner ++ (fence ++ post) from by simp [List.append_assoc]]
      exact dropWhile_append_headFalse (fence_head_not_ws post)
    rw [hws]
    have h4' : hasInfixCS fence (inner.dropWhile isWsChar ++ ff2) = false := by
      have hn := splitAtInfix_eq_none_of_hasInfixCS h4
      have hsuf : inner.dropWhile isWsChar ++ ff2 <:+ inner ++ ff2 := by
        obtain ⟨w, hw⟩ : inner.dropWhile isWsChar <:+ inner := List.dropWhile_suffix isWsChar
        exact ⟨w, by rw [← List.append_assoc, hw]⟩
      simp [hasInfixCS, splitAtInfix_none_suffix hn hsuf]
    have hclose :
        splitAtInfix fence (inner.dropWhile isWsChar ++ (fence ++ post))
          = some (inner.dropWhile isWsChar, post) := by
      rw [← List.append_assoc]
      exact splitAtInfix_append_fence h4'
    rw [hclose]
    exact trimStr_dropWhile inner
  · intro text h
    exact extractCodeBlock_no_block h

/-- C5, witness: both halves of the amended theorem at concrete inputs. -/
theorem c5_amended_witness :
    extractCodeBlock (("x ".toList) ++ fence ++ ("python".toList)
        ++ ("\ncode body\n".toList) ++ fence ++ ("!".toList))
      = trimStr ("\ncode body\n".toList) ∧
    extractCodeBlock ("no fence here".toList) = trimStr ("no fence here".toList) :=
  ⟨c5_amended.1 ("x ".toList) ("python".toList) ("\ncode body\n".toList) ("!".toList)
      (by decide) (by decide) (by decide) (by decide),
   c5_amended.2 ("no fence here".toList) (by decide)⟩

/-! ### Lemmas about `firstScan` and case-insensitive matching -/

theorem firstScan_eq_some {α : Type} {f : Str → Option α} {s : Str} {a : α}
    (h : f s = some a) : firstScan f s = some a := by
  cases s with
  | nil => simpa [firstScan] using h
  | cons c t => simp [firstScan, h]

theorem firstScan_eq_none {α : Type} {f : Str → Option α} {s : Str}
    (h : ∀ t, t <:+ s → f t = none) : firstScan f s = none := by
  induction s with
  | nil => simpa [firstScan] using h [] (List.suffix_refl _)
  | cons c t ih =>
    simp only [firstScan, h (c :: t) (List.suffix_refl _)]
    exact ih (fun u hu => h u (hu.trans (List.suffix_cons c t)))

theorem firstScan_append {α : Type} {f : Str → Option α} {a b : Str}
    (h : ∀ t, t <:+ a → t ≠ [] → f (t ++ b) = none) :
    firstScan f (a ++ b) = firstScan f b := by
  induction a with
  | nil => rfl
  | cons c a' ih =>
    have h0 : f (c :: (a' ++ b)) = none := by
      have := h (c :: a') (List.suffix_refl _) (by simp)
      simpa using this
    simp only [List.cons_append, List.append_eq, firstScan, h0]
    exact ih (fun t ht hne => h t (ht.trans (List.suffix_cons c a')) hne)

theorem ciPre_false_of_suffix {pat w t : Str}
    (h : ciInfixB pat w = false) (hs : t <:+ w) : ciPre pat t = false := by
  induction w with
  | nil =>
    rw [List.suffix_nil.mp hs]
    by_cases hp : ciPre pat [] = true
    · simp [ciInfixB, ciFind, hp] at h
    · simpa using hp
  | cons c x ih =>
    have hsplit : ciPre pat (c :: x) = false ∧ ciInfixB pat x = false := by
      by_cases hp : ciPre pat (c :: x) = true
      · simp [ciInfixB, ciFind, hp] at h
      · simp only [Bool.not_eq_true] at hp
        refine ⟨hp, ?_⟩
        simpa [ciInfixB, ciFind, hp] using h
    rcases List.suffix_cons_iff.mp hs with h1 | h1
    · rw [h1]; exact hsplit.1
    · exact ih hsplit.2 h1

theorem ciPre_append_left {pat x : Str} (y : Str) (h : pat.length ≤ x.length) :
    ciPre pat (x ++ y) = ciPre pat x := by
  induction pat generalizing x with
  | nil => rfl
  | cons p ps ih =>
    cases x with
    | nil => simp at h
    | cons a x' =>
      simp only [List.cons_append, List.append_eq, ciPre]
      rw [ih (by simpa using h)]

theorem ciPre_append_mid_false {pat x y : Str} {c : Char}
    (h : x.length < pat.length) (hc : ∀ d ∈ pat, (lowChar d == lowChar c) = false) :
    ciPre pat (x ++ c :: y) = false := by
  induction pat generalizing x with
  | nil => simp at h
  | cons p ps ih =>
    cases x with
    | nil =>
      simp only [List.nil_append, ciPre]
      rw [hc p (by simp)]
      rfl
    | cons a x' =>
      simp only [List.cons_append, List.append_eq, ciPre]
      rw [ih (by simpa using h) (fun d hd => hc d (by simp [hd]))]
      simp

theorem takeWhile_append_all {p : Char → Bool} {t z : Str}
    (h : ∀ c ∈ t, p c = true) (hz : ∀ c, z.head? = some c → p c = false) :
    (t ++ z).takeWhile p = t := by
  induction t with
  | nil =>
    cases z with
    | nil => rfl
    | cons a w => simp [List.takeWhile_cons, hz a rfl]
  | cons c t' ih =>
    simp [List.takeWhile_cons, h c (by simp), ih (fun x hx => h x (by simp [hx]))]

theorem orNullStr_of_ne {t : Str} (h : t ≠ []) : orNullStr (some t) = some t := by
  cases t with
  | nil => exact absurd rfl h
  | cons c u => rfl

/-! ### C7: extractComplexity -/

theorem timeTail_family {t s : Str}
    (ht0 : t ≠ []) (htn : ∀ c ∈ t, c ≠ '\n')
    (htw : ∀ c, t.head? = some c → isWsChar c = false) :
    timeTail (' ' :: (t ++ '\n' :: (spaceLabel ++ (s ++ ['\n'])))) = some t := by
  obtain ⟨c0, t', rfl⟩ : ∃ c0 t', t = c0 :: t' := by
    cases t with
    | nil => exact absurd rfl ht0
    | cons a b => exact ⟨a, b, rfl⟩
  have hw0 : isWsChar c0 = false := htw c0 rfl
  have hlen : ((' ' :: ((c0 :: t') ++ '\n' :: (spaceLabel ++ (s ++ ['\n'])))).takeWhile isWsChar).length = 1 := by
    simp [List.takeWhile_cons, hw0]
    decide
  rw [timeTail, hlen]
  unfold compTailTimeK
  have hseg : (((c0 :: t') ++ '\n' :: (spaceLabel ++ (s ++ ['\n'])))).takeWhile (fun c => c != '\n')
      = c0 :: t' := by
    apply takeWhile_append_all
    · intro c hc
      simpa using htn c hc
    · intro c hc
      simp at hc
      rw [← hc]
      decide
  simp only [List.drop_succ_cons, List.drop_zero, hseg]
  have hdrop : ((c0 :: t') ++ '\n' :: (spaceLabel ++ (s ++ ['\n']))).drop (c0 :: t').length
      = '\n' :: (spaceLabel ++ (s ++ ['\n'])) := List.drop_left _ _
  rw [show (c0 :: t').isEmpty = false from rfl]
  simp only [Bool.false_eq_true, if_false, hdrop]
  unfold timeExtGo
  simp only [show ('\n' == '\n') = true from rfl, if_true]
  rw [show timeLookScan (spaceLabel ++ (s ++ ['\n'])) = true from rfl]
  simp [List.reverse_reverse]

theorem timeMatch_family {t s : Str}
    (ht0 : t ≠ []) (htn : ∀ c ∈ t, c ≠ '\n')
    (htw : ∀ c, t.head? = some c → isWsChar c = false) :
    timeMatch (labeledComplexityText t s) = some t := by
  apply firstScan_eq_some
  show tryCandsWith timeTail (timeHeadCands (labeledComplexityText t s)) = some t
  have hcands : timeHeadCands (labeledComplexityText t s)
      = (' ' :: (t ++ '\n' :: (spaceLabel ++ (s ++ ['\n']))))
        :: (':' :: ' ' :: (t ++ '\n' :: (spaceLabel ++ (s ++ ['\n']))))
        :: colonCands ((labeledComplexityText t s).drop 4) := rfl
  rw [hcands]
  unfold tryCandsWith
  rw [timeTail_family ht0 htn htw]

theorem spaceTail_family {s : Str} (hs0 : s ≠ []) (hsn : ∀ c ∈ s, c ≠ '\n')
    (hsw : ∀ c, s.head? = some c → isWsChar c = false) :
    spaceTail (' ' :: (s ++ ['\n'])) = some s := by
  obtain ⟨c0, s', rfl⟩ : ∃ c0 s', s = c0 :: s' := by
    cases s with
    | nil => exact absurd rfl hs0
    | cons a b => exact ⟨a, b, rfl⟩
  have hw0 : isWsChar c0 = false := hsw c0 rfl
  have hlen : ((' ' :: ((c0 :: s') ++ ['\n'])).takeWhile isWsChar).length = 1 := by
    simp [List.takeWhile_cons, hw0]
    decide
  rw [spaceTail, hlen]
  unfold compTailSpaceK
  have hseg : ((c0 :: s') ++ ['\n']).takeWhile (fun c => c != '\n') = c0 :: s' := by
    apply takeWhile_append_all
    · intro c hc
      simpa using hsn c hc
    · intro c hc
      simp at hc
      rw [← hc]
      decide
  simp only [List.drop_succ_cons, List.drop_zero, hseg]
  rw [show (c0 :: s').isEmpty = false from rfl]
  simp

theorem firstScan_cons_none {α : Type} {f : Str → Option α} {c : Char} {t : Str}
    (h : f (c :: t) = none) : firstScan f (c :: t) = firstScan f t := by
  show (match f (c :: t) with | some a => some a | none => firstScan f t) = firstScan f t
  rw [h]

theorem spaceMatch_family {t s : Str}
    (hs0 : s ≠ []) (hsn : ∀ c ∈ s, c ≠ '\n')
    (hsw : ∀ c, s.head? = some c → isWsChar c = false)
    (hts : ciInfixB ("space".toList) (timeLabel ++ t) = false) :
    spaceMatch (labeledComplexityText t s) = some s := by
  have hre : labeledComplexityText t s
      = (timeLabel ++ t) ++ ('\n' :: (spaceLabel ++ (s ++ ['\n']))) := by
    simp [labeledComplexityText, List.append_assoc]
  have hskip : firstScan (fun v => tryCandsWith spaceTail (spaceHeadCands v))
      ((timeLabel ++ t) ++ ('\n' :: (spaceLabel ++ (s ++ ['\n']))))
      = firstScan (fun v => tryCandsWith spaceTail (spaceHeadCands v))
          ('\n' :: (spaceLabel ++ (s ++ ['\n']))) := by
    apply firstScan_append
    intro u hu hne
    have hfalse : ciPre ("space".toList) (u ++ '\n' :: (spaceLabel ++ (s ++ ['\n']))) = false := by
      by_cases hlen : ("space".toList).length ≤ u.length
      · rw [ciPre_append_left _ hlen]
        exact ciPre_false_of_suffix hts hu
      · push_neg at hlen
        exact ciPre_append_mid_false hlen (by decide)
    have hfalse2 : ciPre ['s', 'p', 'a', 'c', 'e'] (u ++ '\n' :: (spaceLabel ++ (s ++ ['\n']))) = false :=
      hfalse
    show tryCandsWith spaceTail (spaceHeadCands (u ++ '\n' :: (spaceLabel ++ (s ++ ['\n'])))) = none
    unfold spaceHeadCands
    rw [hfalse]
    rfl
  rw [spaceMatch, hre, hskip, firstScan_cons_none (by rfl)]
  apply firstScan_eq_some
  show tryCandsWith spaceTail (spaceHeadCands (spaceLabel ++ (s ++ ['\n']))) = some s
  have hcands : spaceHeadCands (spaceLabel ++ (s ++ ['\n']))
      = (' ' :: (s ++ ['\n'])) :: (':' :: ' ' :: (s ++ ['\n']))
        :: colonCands ((spaceLabel ++ (s ++ ['\n'])).drop 5) := rfl
  rw [hcands]
  unfold tryCandsWith
  rw [spaceTail_family hs0 hsn hsw]

theorem formatComplexity_with_marker {c : Str} (hb : (bigOFind c).isSome = true)
    (hm : hasInfixCS ['-'] c = true ∨ hasInfixCS ("because".toList) c = true) :
    formatComplexity (some c) = trimStr c := by
  unfold formatComplexity
  simp only []
  obtain ⟨nota, hn⟩ := Option.isSome_iff_exists.mp hb
  rw [hn]
  rcases hm with h | h
  · simp [h]
  · have h2 : hasInfixCS ['b', 'e', 'c', 'a', 'u', 's', 'e'] c = true := h
    simp [h2]

theorem formatComplexity_no_marker {c nota : Str} (hn : bigOFind c = some nota)
    (h1 : hasInfixCS ['-'] c = false) (h2 : hasInfixCS ("because".toList) c = false) :
    formatComplexity (some c) = nota ++ (" - ".toList) ++ trimStr (replaceFirst nota c) := by
  unfold formatComplexity
  simp only []
  rw [hn]
  have h3 : hasInfixCS ['b', 'e', 'c', 'a', 'u', 's', 'e'] c = false := h2
  simp [h1, h3]

theorem timeMatch_absent {text : Str} (h : ciInfixB ("time".toList) text = false) :
    timeMatch text = none := by
  apply firstScan_eq_none
  intro u hu
  have hp : ciPre ("time".toList) u = false := ciPre_false_of_suffix h hu
  show tryCandsWith timeTail (timeHeadCands u) = none
  unfold timeHeadCands
  rw [hp]
  rfl

theorem spaceMatch_absent {text : Str} (h : ciInfixB ("space".toList) text = false) :
    spaceMatch text = none := by
  apply firstScan_eq_none
  intro u hu
  have hp : ciPre ("space".toList) u = false := ciPre_false_of_suffix h hu
  show tryCandsWith spaceTail (spaceHeadCands u) = none
  unfold spaceHeadCands
  rw [hp]
  rfl

/-- C7, amended: on newline-terminated labelled responses whose time span
does not itself contain the word "space" (case-insensitively), the extractor
returns, for each field, exactly `formatComplexity` of the labelled span;
`formatComplexity` returns the span as-is (trimmed) when it contains Big-O
notation together with a hyphen or "because", and otherwise re-attaches the
Big-O token with a hyphen separator to the remaining explanation; a field
whose label is entirely absent yields the fixed default
"O(n) - Complexity not available".  (Per the counterexample, a labelled
span is recognised only when a newline terminates it: a time label whose
text runs to the end of the string without any newline is treated as
absent.  The "space"-free proviso is necessary, per the last conjunct: the
space-label search scans the whole text independently of the time match, so
a "space" occurrence inside the time line becomes the space anchor and the
space regex's leading whitespace run crosses the newline, capturing the
text of the NEXT line — on time span "O(n) uses extra space" with space
span "O(1)" the space field comes out "O(1) - Space Complexity:", not
`formatComplexity` of the labelled space span.) -/
theorem c7_amended :
    (∀ t s : Str,
      t ≠ [] → (∀ c ∈ t, c ≠ '\n') → (∀ c, t.head? = some c → isWsChar c = false) →
      s ≠ [] → (∀ c ∈ s, c ≠ '\n') → (∀ c, s.head? = some c → isWsChar c = false) →
      ciInfixB ("space".toList) (timeLabel ++ t) = false →
      extractComplexity (labeledComplexityText t s)
        = (formatComplexity (some t), formatComplexity (some s))) ∧
    (∀ c : Str, (bigOFind c).isSome = true →
      (hasInfixCS ['-'] c = true ∨ hasInfixCS ("because".toList) c = true) →
      formatComplexity (some c) = trimStr c) ∧
    (∀ c nota : Str, bigOFind c = some nota →
      hasInfixCS ['-'] c = false → hasInfixCS ("because".toList) c = false →
      formatComplexity (some c) = nota ++ (" - ".toList) ++ trimStr (replaceFirst nota c)) ∧
    (∀ text : Str, ciInfixB ("time".toList) text = false →
      (extractComplexity text).1 = defaultComplexity) ∧
    (∀ text : Str, ciInfixB ("space".toList) text = false →
      (extractComplexity text).2 = defaultComplexity) ∧
    (ciInfixB ("space".toList) (timeLabel ++ ("O(n) uses extra space".toList)) = true ∧
      (extractComplexity
          (labeledComplexityText ("O(n) uses extra space".toList) ("O(1)".toList))).1
        = formatComplexity (some ("O(n) uses extra space".toList)) ∧
      (extractComplexity
          (labeledComplexityText ("O(n) uses extra space".toList) ("O(1)".toList))).2
        = ("O(1) - Space Complexity:".toList) ∧
      (extractComplexity
          (labeledComplexityText ("O(n) uses extra space".toList) ("O(1)".toList))).2
        ≠ formatComplexity (some ("O(1)".toList))) := by
  refine ⟨?_, ?_, ?_, ?_, ?_, ?_⟩
  · intro t s ht0 htn htw hs0 hsn hsw hts
    unfold extractComplexity
    rw [timeMatch_family ht0 htn htw, spaceMatch_family hs0 hsn hsw hts,
      orNullStr_of_ne ht0, orNullStr_of_ne hs0]
  · intro c hb hm
    exact formatComplexity_with_marker hb hm
  · intro c nota hn h1 h2
    exact formatComplexity_no_marker hn h1 h2
  · intro text h
    unfold extractComplexity
    rw [timeMatch_absent h]
    rfl
  · intro text h
    unfold extractComplexity
    rw [spaceMatch_absent h]
    rfl
  · exact ⟨by decide, by decide, by decide, by decide⟩

/-- C7, counterexample: in `"Time: O(n) because sorting"` the time label is
present and its span contains Big-O notation and the word "because", so the
claim requires the span as-is; but the time regex lookahead demands a
newline, the text has none, so the extractor falls back to the fixed
default for both fields. -/
theorem c7_counterexample :
    ciInfixB ("time:".toList) ("Time: O(n) because sorting".toList) = true ∧
    (bigOFind ("O(n) because sorting".toList)).isSome = true ∧
    hasInfixCS ("because".toList) ("O(n) because sorting".toList) = true ∧
    extractComplexity ("Time: O(n) because sorting".toList)
      = (defaultComplexity, defaultComplexity) ∧
    defaultComplexity ≠ trimStr ("O(n) because sorting".toList) := by
  refine ⟨by decide, by decide, by decide, by decide, by decide⟩

/-- C7, witness: all five parts of the amended theorem at concrete inputs. -/
theorem c7_amended_witness :
    extractComplexity (labeledComplexityText ("O(n) because sorted".toList) ("O(1)".toList))
      = (formatComplexity (some ("O(n) because sorted".toList)),
         formatComplexity (some ("O(1)".toList))) ∧
    formatComplexity (some ("O(n) because x".toList)) = trimStr ("O(n) because x".toList) ∧
    formatComplexity (some ("O(1) tight".toList))
      = ("O(1)".toList) ++ (" - ".toList) ++ trimStr (replaceFirst ("O(1)".toList) ("O(1) tight".toList)) ∧
    (extractComplexity ("nothing here".toList)).1 = defaultComplexity ∧
    (extractComplexity ("nothing here".toList)).2 = defaultComplexity :=
  ⟨c7_amended.1 ("O(n) because sorted".toList) ("O(1)".toList)
      (by decide) (by decide) (by decide) (by decide) (by decide) (by decide) (by decide),
   (c7_amended.2.1 ("O(n) because x".toList) (by decide) (Or.inr (by decide))),
   (c7_amended.2.2.1 ("O(1) tight".toList) ("O(1)".toList) (by decide) (by decide) (by decide)),
   (c7_amended.2.2.2.1 ("nothing here".toList) (by decide)),
   (c7_amended.2.2.2.2.1 ("nothing here".toList) (by decide))⟩

/-! ### C6: extractPseudoCode vs extractCodeBlock on fence-free inputs -/

theorem tryFenceTags_none {after : Str} (h : splitAtInfix fence after = none) :
    ∀ tags, tryFenceTags tags after = none := by
  intro tags
  induction tags with
  | nil => rfl
  | cons tg rest ih =>
    have hsfx : splitAtInfix fence ((after.drop tg.length).dropWhile isWsChar) = none :=
      splitAtInfix_none_suffix h ((List.dropWhile_suffix _).trans (List.drop_suffix _ _))
    unfold tryFenceTags
    by_cases hp : ciPre tg after = true
    · simp [hp, hsfx, ih]
    · simp [hp, ih]

theorem pseudoBlockA_none {text : Str} (h : hasFencedBlockB text = false) :
    pseudoBlockA text = none := by
  unfold pseudoBlockA
  cases hs : splitAtInfix fence text with
  | none => rfl
  | some p =>
    have h2 : (splitAtInfix fence p.2).isSome = false := by
      rw [hasFencedBlockB, hs] at h
      simpa using h
    have h' : splitAtInfix fence p.2 = none := by
      cases h3 : splitAtInfix fence p.2 with
      | none => rfl
      | some q => rw [h3] at h2; simp at h2
    exact tryFenceTags_none h' _

theorem pseudoBlockB_none {text : Str} (h : hasFencedBlockB text = false) :
    pseudoBlockB text = none := by
  unfold pseudoBlockB
  cases hs : splitAtInfix fence text with
  | none => rfl
  | some p =>
    have h2 : (splitAtInfix fence p.2).isSome = false := by
      rw [hasFencedBlockB, hs] at h
      simpa using h
    have h' : splitAtInfix fence p.2 = none := by
      cases h3 : splitAtInfix fence p.2 with
      | none => rfl
      | some q => rw [h3] at h2; simp at h2
    simp only []
    rw [splitAtInfix_none_suffix h' (List.dropWhile_suffix _)]
    rfl

/-- C6, counterexample: `"1. do it"` contains no fenced block, yet the
pseudocode extractor's numbered-step fallback returns the non-empty string
`"1. do it"` — and on this input the two extractors agree rather than
disagree, both returning the full trimmed text. -/
theorem c6_counterexample :
    hasFencedBlockB ("1. do it".toList) = false ∧
    extractPseudoCode ("1. do it".toList) = "1. do it".toList ∧
    extractPseudoCode ("1. do it".toList) ≠ [] ∧
    extractCodeBlock ("1. do it".toList) = "1. do it".toList := by
  refine ⟨by decide, by decide, by decide, by decide⟩

/-- C6, amended: on fence-free inputs where the pseudocode extractor's
heading-section and numbered-step fallback strategies also find nothing,
the pseudocode extractor returns the empty string while the Stage-5 code
extractor returns the full trimmed response text, so the two extractors
disagree exactly on such inputs whose trimmed text is non-empty. -/
theorem c6_amended (text : Str)
    (hf : hasFencedBlockB text = false)
    (hc : nonEmptyTrim (pseudoHeadingC text) = none)
    (hd : nonEmptyTrim (pseudoHeadingD text) = none)
    (he : nonEmptyTrim (pseudoHeadingE text) = none)
    (hs : stepMatches text = []) :
    extractPseudoCode text = [] ∧
    extractCodeBlock text = trimStr text ∧
    (trimStr text ≠ [] → extractPseudoCode text ≠ extractCodeBlock text) := by
  have hp : extractPseudoCode text = [] := by
    unfold extractPseudoCode
    rw [pseudoBlockA_none hf, pseudoBlockB_none hf, hc, hd, he, hs]
    rfl
  have hcode : extractCodeBlock text = trimStr text := extractCodeBlock_no_block hf
  refine ⟨hp, hcode, ?_⟩
  intro hne
  rw [hp, hcode]
  exact fun heq => hne heq.symm

/-- C6, witness for the amended theorem. -/
theorem c6_amended_witness :
    extractPseudoCode ("hello world".toList) = [] ∧
    extractCodeBlock ("hello world".toList) = trimStr ("hello world".toList) ∧
    (trimStr ("hello world".toList) ≠ [] →
      extractPseudoCode ("hello world".toList) ≠ extractCodeBlock ("hello world".toList)) :=
  c6_amended ("hello world".toList) (by decide) (by decide) (by decide) (by decide) (by decide)

/-! ### C8: the bullet extractor (ProcessingHelper.extractBulletPoints) -/

theorem bulletGo_ws1_skip {w : Str} (h : ∀ c ∈ w, isWsChar c = true) (s : Str) :
    bulletGo .ws1 (w ++ s) = bulletGo .ws1 s := by
  induction w with
  | nil => rfl
  | cons c w ih =>
    rw [show (c :: w) ++ s = c :: (w ++ s) from rfl]
    simp only [bulletGo, h c (by simp), if_true]
    exact ih (fun x hx => h x (by simp [hx]))

theorem bulletGo_seek_skip {u : Str} (h : ∀ c ∈ u, c ≠ '\n') (s : Str) :
    bulletGo .seek (u ++ s) = bulletGo .seek s := by
  induction u with
  | nil => rfl
  | cons c u ih =>
    rw [show (c :: u) ++ s = c :: (u ++ s) from rfl]
    have hc : (c == '\n') = false := by
      simpa using h c (by simp)
    simp only [bulletGo, hc, Bool.false_eq_true, if_false]
    exact ih (fun x hx => h x (by simp [hx])) 

theorem bulletGo_ws2_skip {w : Str} (h : ∀ c ∈ w, isWsChar c = true) (s : Str) :
    bulletGo .ws2 (w ++ s) = bulletGo .ws2 s := by
  induction w with
  | nil => rfl
  | cons c w ih =>
    rw [show (c :: w) ++ s = c :: (w ++ s) from rfl]
    simp only [bulletGo, h c (by simp), if_true]
    exact ih (fun x hx => h x (by simp [hx]))

theorem bulletGo_dig_skip {d : Str} (h : ∀ c ∈ d, c.isDigit = true) (s : Str) :
    bulletGo .dig (d ++ s) = bulletGo .dig s := by
  induction d with
  | nil => rfl
  | cons c d ih =>
    rw [show (c :: d) ++ s = c :: (d ++ s) from rfl]
    simp only [bulletGo, h c (by simp), if_true]
    exact ih (fun x hx => h x (by simp [hx]))

theorem bulletGo_cont_skip {u : Str} (h : ∀ c ∈ u, c ≠ '\n') (acc s : Str) :
    bulletGo (.cont acc) (u ++ s) = bulletGo (.cont (u.reverse ++ acc)) s := by
  induction u generalizing acc with
  | nil => rfl
  | cons c u ih =>
    rw [show (c :: u) ++ s = c :: (u ++ s) from rfl]
    have hc : (c == '\n') = false := by
      simpa using h c (by simp)
    simp only [bulletGo, hc, Bool.false_eq_true, if_false]
    rw [ih (fun x hx => h x (by simp [hx])) (c :: acc)]
    congr 1
    simp

theorem dropWhile_head_not {p : Char → Bool} {l : Str} {c : Char} {t : Str}
    (h : l.dropWhile p = c :: t) : p c = false := by
  induction l with
  | nil => simp at h
  | cons a l ih =>
    by_cases ha : p a = true
    · rw [List.dropWhile_cons, if_pos ha] at h
      exact ih h
    · rw [List.dropWhile_cons, if_neg ha] at h
      injection h with h1 h2
      rw [← h1]
      simpa using ha

theorem digit_not_marker {c : Char} (h : c.isDigit = true) : isMarkerChar c = false := by
  unfold isMarkerChar
  cases hb1 : c == '-' with
  | true => exact absurd h (by rw [eq_of_beq hb1]; decide)
  | false =>
    cases hb2 : c == '*' with
    | true => exact absurd h (by rw [eq_of_beq hb2]; decide)
    | false =>
      cases hb3 : c == '•' with
      | true => exact absurd h (by rw [eq_of_beq hb3]; decide)
      | false => simp [hb1, hb2, hb3]

theorem bulletGo_ws2_line {r1 : Str} (hn : ∀ c ∈ r1, c ≠ '\n')
    (hne : r1.dropWhile isWsChar ≠ []) (s : Str) :
    bulletGo .ws2 (r1 ++ '\n' :: s) = (r1.dropWhile isWsChar) :: bulletGo .ws1 s := by
  obtain ⟨d, c2, hd⟩ : ∃ d c2, r1.dropWhile isWsChar = d :: c2 := by
    cases hcd : r1.dropWhile isWsChar with
    | nil => exact absurd hcd hne
    | cons d c2 => exact ⟨d, c2, rfl⟩
  have hsplit : r1.takeWhile isWsChar ++ r1.dropWhile isWsChar = r1 :=
    List.takeWhile_append_dropWhile isWsChar r1
  have hstep : bulletGo .ws2 (r1 ++ '\n' :: s)
      = bulletGo .ws2 (r1.dropWhile isWsChar ++ '\n' :: s) := by
    conv_lhs => rw [← hsplit]
    rw [List.append_assoc]
    exact bulletGo_ws2_skip (fun c hc => List.mem_takeWhile_imp hc) _
  rw [hstep, hd]
  have hdw : isWsChar d = false := dropWhile_head_not hd
  rw [show (d :: c2) ++ '\n' :: s = d :: (c2 ++ '\n' :: s) from rfl]
  simp only [bulletGo, hdw, Bool.false_eq_true, if_false]
  have hc2 : ∀ c ∈ c2, c ≠ '\n' := by
    intro c hc
    have hmem : c ∈ r1 := by
      have hsub : r1.dropWhile isWsChar <:+ r1 := List.dropWhile_suffix isWsChar
      exact hsub.subset (by rw [hd]; simp [hc])
    exact hn c hmem
  rw [bulletGo_cont_skip hc2 [d] ('\n' :: s)]
  simp only [bulletGo, show ('\n' == '\n') = true from rfl, if_true]
  congr 1
  simp

theorem bulletGo_ws2_last {r1 : Str} (hn : ∀ c ∈ r1, c ≠ '\n')
    (hne : r1.dropWhile isWsChar ≠ []) :
    bulletGo .ws2 r1 = [r1.dropWhile isWsChar] := by
  obtain ⟨d, c2, hd⟩ : ∃ d c2, r1.dropWhile isWsChar = d :: c2 := by
    cases hcd : r1.dropWhile isWsChar with
    | nil => exact absurd hcd hne
    | cons d c2 => exact ⟨d, c2, rfl⟩
  have hsplit : r1.takeWhile isWsChar ++ r1.dropWhile isWsChar = r1 :=
    List.takeWhile_append_dropWhile isWsChar r1
  have hstep : bulletGo .ws2 r1 = bulletGo .ws2 (r1.dropWhile isWsChar) := by
    conv_lhs => rw [← hsplit]
    exact bulletGo_ws2_skip (fun c hc => List.mem_takeWhile_imp hc) _
  rw [hstep, hd]
  have hdw : isWsChar d = false := dropWhile_head_not hd
  rw [show (d :: c2 : Str) = d :: (c2 ++ []) from by simp]
  simp only [bulletGo, hdw, Bool.false_eq_true, if_false]
  have hc2 : ∀ c ∈ c2, c ≠ '\n' := by
    intro c hc
    have hmem : c ∈ r1 := by
      have hsub : r1.dropWhile isWsChar <:+ r1 := List.dropWhile_suffix isWsChar
      exact hsub.subset (by rw [hd]; simp [hc])
    exact hn c hmem
  rw [bulletGo_cont_skip hc2 [d] []]
  simp only [bulletGo]
  congr 1
  simp

theorem bulletGo_line {L : Str} (hn : ∀ c ∈ L, c ≠ '\n')
    (hr : ∀ r, lineBulletRaw L = some r → r ≠ []) (s : Str) :
    bulletGo .ws1 (L ++ '\n' :: s)
      = (match lineBulletRaw L with
         | some r => r :: bulletGo .ws1 s
         | none => bulletGo .ws1 s) := by
  have hstep : bulletGo .ws1 (L ++ '\n' :: s)
      = bulletGo .ws1 (L.dropWhile isWsChar ++ '\n' :: s) := by
    conv_lhs => rw [← List.takeWhile_append_dropWhile isWsChar L]
    rw [List.append_assoc]
    exact bulletGo_ws1_skip (fun c hc => List.mem_takeWhile_imp hc) _
  rw [hstep]
  have hsubL : ∀ c, c ∈ L.dropWhile isWsChar → c ∈ L :=
    fun c hc => (List.dropWhile_suffix isWsChar).subset hc
  cases hrest : L.dropWhile isWsChar with
  | nil =>
    have hlbr : lineBulletRaw L = none := by
      unfold lineBulletRaw
      rw [hrest]
      rfl
    rw [hlbr]
    rw [show ([] : Str) ++ '\n' :: s = '\n' :: s from rfl]
    simp only [bulletGo, show isWsChar '\n' = true from rfl, if_true]
  | cons c r1 =>
    have hcw : isWsChar c = false := dropWhile_head_not hrest
    have hr1 : ∀ x ∈ r1, x ≠ '\n' := fun x hx =>
      hn x (hsubL x (by rw [hrest]; simp [hx]))
    rw [show (c :: r1) ++ '\n' :: s = c :: (r1 ++ '\n' :: s) from rfl]
    by_cases hm : isMarkerChar c = true
    · have hlbr : lineBulletRaw L = some (r1.dropWhile isWsChar) := by
        unfold lineBulletRaw markerSplit
        rw [hrest]
        simp [hm]
      have hne : r1.dropWhile isWsChar ≠ [] :=
        hr (r1.dropWhile isWsChar) hlbr
      rw [hlbr]
      simp only [bulletGo, hcw, Bool.false_eq_true, if_false, hm, if_true]
      exact bulletGo_ws2_line hr1 hne s
    · by_cases hd : c.isDigit = true
      · -- digit-led line
        have hdd : (c :: r1).dropWhile Char.isDigit = r1.dropWhile Char.isDigit := by
          rw [List.dropWhile_cons, if_pos hd]
        have hdig : bulletGo BState.ws1 (c :: (r1 ++ '\n' :: s))
            = bulletGo .dig (r1 ++ '\n' :: s) := by
          simp only [bulletGo, hcw, Bool.false_eq_true, if_false, hm, hd, if_true]
        rw [hdig]
        have hsplit1 : r1.takeWhile Char.isDigit ++ r1.dropWhile Char.isDigit = r1 :=
          List.takeWhile_append_dropWhile Char.isDigit r1
        have hstep2 : bulletGo .dig (r1 ++ '\n' :: s)
            = bulletGo .dig (r1.dropWhile Char.isDigit ++ '\n' :: s) := by
          conv_lhs => rw [← hsplit1]
          rw [List.append_assoc]
          exact bulletGo_dig_skip (fun x hx => List.mem_takeWhile_imp hx) _
        rw [hstep2]
        cases hafter : r1.dropWhile Char.isDigit with
        | nil =>
          have hlbr : lineBulletRaw L = none := by
            unfold lineBulletRaw markerSplit
            rw [hrest]
            simp only [hm, Bool.false_eq_true, if_false, hd, if_true, hdd, hafter]
          rw [hlbr]
          rw [show ([] : Str) ++ '\n' :: s = '\n' :: s from rfl]
          simp only [bulletGo]
          rfl
        | cons e r2 =>
          have hed : e.isDigit = false := dropWhile_head_not hafter
          have hsub2 : ∀ x, x ∈ e :: r2 → x ∈ r1 := by
            intro x hx
            have hsfx : r1.dropWhile Char.isDigit <:+ r1 := List.dropWhile_suffix Char.isDigit
            exact hsfx.subset (by rw [hafter]; exact hx)
          have hr2 : ∀ x ∈ r2, x ≠ '\n' := fun x hx => hr1 x (hsub2 x (by simp [hx]))
          have henl : e ≠ '\n' := hr1 e (hsub2 e (by simp))
          rw [show (e :: r2) ++ '\n' :: s = e :: (r2 ++ '\n' :: s) from rfl]
          by_cases hedot : e = '.'
          · subst hedot
            have hlbr : lineBulletRaw L = some (r2.dropWhile isWsChar) := by
              unfold lineBulletRaw markerSplit
              rw [hrest]
              simp only [hm, Bool.false_eq_true, if_false, hd, if_true, hdd, hafter]
            have hne : r2.dropWhile isWsChar ≠ [] :=
              hr (r2.dropWhile isWsChar) hlbr
            rw [hlbr]
            simp only [bulletGo, show ('.'.isDigit) = false from rfl, Bool.false_eq_true,
              if_false, show ('.' == '.') = true from rfl, if_true]
            exact bulletGo_ws2_line hr2 hne s
          · have hms : (match e :: r2 with
                | '.' :: u => some u
                | _ => none) = (none : Option Str) := by
              split
              · next u heq =>
                injection heq with h1 _
                exact absurd h1 hedot
              · rfl
            have hlbr : lineBulletRaw L = none := by
              unfold lineBulletRaw markerSplit
              rw [hrest]
              simp only [hm, Bool.false_eq_true, if_false, hd, if_true, hdd, hafter, hms]
            rw [hlbr]
            have hebe : (e == '.') = false := by simpa using hedot
            have hene : (e == '\n') = false := by simpa using henl
            simp only [bulletGo, hed, Bool.false_eq_true, if_false, hebe, hene]
            rw [bulletGo_seek_skip hr2 ('\n' :: s)]
            simp only [bulletGo, show ('\n' == '\n') = true from rfl, if_true]
      · -- neither marker nor digit: the attempt fails, scan to the newline
        have hlbr : lineBulletRaw L = none := by
          unfold lineBulletRaw markerSplit
          rw [hrest]
          simp [hm, hd]
        rw [hlbr]
        simp only [bulletGo, hcw, Bool.false_eq_true, if_false, hm, hd]
        rw [bulletGo_seek_skip hr1 ('\n' :: s)]
        simp only [bulletGo, show ('\n' == '\n') = true from rfl, if_true]

theorem bulletGo_last {L : Str} (hn : ∀ c ∈ L, c ≠ '\n')
    (hr : ∀ r, lineBulletRaw L = some r → r ≠ []) :
    bulletGo .ws1 L
      = (match lineBulletRaw L with
         | some r => [r]
         | none => []) := by
  have hstep : bulletGo .ws1 L = bulletGo .ws1 (L.dropWhile isWsChar) := by
    conv_lhs => rw [← List.takeWhile_append_dropWhile isWsChar L]
    exact bulletGo_ws1_skip (fun c hc => List.mem_takeWhile_imp hc) _
  rw [hstep]
  have hsubL : ∀ c, c ∈ L.dropWhile isWsChar → c ∈ L :=
    fun c hc => (List.dropWhile_suffix isWsChar).subset hc
  cases hrest : L.dropWhile isWsChar with
  | nil =>
    have hlbr : lineBulletRaw L = none := by
      unfold lineBulletRaw
      rw [hrest]
      rfl
    rw [hlbr]
    rfl
  | cons c r1 =>
    have hcw : isWsChar c = false := dropWhile_head_not hrest
    have hr1 : ∀ x ∈ r1, x ≠ '\n' := fun x hx =>
      hn x (hsubL x (by rw [hrest]; simp [hx]))
    by_cases hm : isMarkerChar c = true
    · have hlbr : lineBulletRaw L = some (r1.dropWhile isWsChar) := by
        unfold lineBulletRaw markerSplit
        rw [hrest]
        simp [hm]
      have hne : r1.dropWhile isWsChar ≠ [] :=
        hr (r1.dropWhile isWsChar) hlbr
      rw [hlbr]
      simp only [bulletGo, hcw, Bool.false_eq_true, if_false, hm, if_true]
      exact bulletGo_ws2_last hr1 hne
    · by_cases hd : c.isDigit = true
      · have hdd : (c :: r1).dropWhile Char.isDigit = r1.dropWhile Char.isDigit := by
          rw [List.dropWhile_cons, if_pos hd]
        have hdig : bulletGo BState.ws1 (c :: r1) = bulletGo .dig r1 := by
          simp only [bulletGo, hcw, Bool.false_eq_true, if_false, hm, hd, if_true]
        rw [hdig]
        have hstep2 : bulletGo .dig r1 = bulletGo .dig (r1.dropWhile Char.isDigit) := by
          conv_lhs => rw [← List.takeWhile_append_dropWhile Char.isDigit r1]
          exact bulletGo_dig_skip (fun x hx => List.mem_takeWhile_imp hx) _
        rw [hstep2]
        cases hafter : r1.dropWhile Char.isDigit with
        | nil =>
          have hlbr : lineBulletRaw L = none := by
            unfold lineBulletRaw markerSplit
            rw [hrest]
            simp only [hm, Bool.false_eq_true, if_false, hd, if_true, hdd, hafter]
          rw [hlbr]
          rfl
        | cons e r2 =>
          have hed : e.isDigit = false := dropWhile_head_not hafter
          have hsub2 : ∀ x, x ∈ e :: r2 → x ∈ r1 := by
            intro x hx
            have hsfx : r1.dropWhile Char.isDigit <:+ r1 := List.dropWhile_suffix Char.isDigit
            exact hsfx.subset (by rw [hafter]; exact hx)
          have hr2 : ∀ x ∈ r2, x ≠ '\n' := fun x hx => hr1 x (hsub2 x (by simp [hx]))
          have henl : e ≠ '\n' := hr1 e (hsub2 e (by simp))
          by_cases hedot : e = '.'
          · subst hedot
            have hlbr : lineBulletRaw L = some (r2.dropWhile isWsChar) := by
              unfold lineBulletRaw markerSplit
              rw [hrest]
              simp only [hm, Bool.false_eq_true, if_false, hd, if_true, hdd, hafter]
            have hne : r2.dropWhile isWsChar ≠ [] :=
              hr (r2.dropWhile isWsChar) hlbr
            rw [hlbr]
            simp only [bulletGo, show ('.'.isDigit) = false from rfl, Bool.false_eq_true,
              if_false, show ('.' == '.') = true from rfl, if_true]
            exact bulletGo_ws2_last hr2 hne
          · have hms : (match e :: r2 with
                | '.' :: u => some u
                | _ => none) = (none : Option Str) := by
              split
              · next u heq =>
                injection heq with h1 _
                exact absurd h1 hedot
              · rfl
            have hlbr : lineBulletRaw L = none := by
              unfold lineBulletRaw markerSplit
              rw [hrest]
              simp only [hm, Bool.false_eq_true, if_false, hd, if_true, hdd, hafter, hms]
            rw [hlbr]
            have hebe : (e == '.') = false := by simpa using hedot
            have hene : (e == '\n') = false := by simpa using henl
            simp only [bulletGo, hed, Bool.false_eq_true, if_false, hebe, hene]
            have hseek : bulletGo BState.seek r2 = bulletGo BState.seek [] := by
              conv_lhs => rw [← List.append_nil r2]
              exact bulletGo_seek_skip hr2 []
            rw [hseek]
            rfl
      · have hlbr : lineBulletRaw L = none := by
          unfold lineBulletRaw markerSplit
          rw [hrest]
          simp [hm, hd]
        rw [hlbr]
        simp only [bulletGo, hcw, Bool.false_eq_true, if_false, hm, hd]
        have hseek : bulletGo BState.seek r1 = bulletGo BState.seek [] := by
          conv_lhs => rw [← List.append_nil r1]
          exact bulletGo_seek_skip hr1 []
        rw [hseek]
        rfl

theorem bulletMatches_lines : ∀ ls : List Str,
    (∀ L ∈ ls, ∀ c ∈ L, c ≠ '\n') →
    (∀ L ∈ ls, ∀ r, lineBulletRaw L = some r → r ≠ []) →
    bulletMatches (joinNL ls) = ls.filterMap lineBulletRaw := by
  intro ls
  induction ls with
  | nil => intro _ _; rfl
  | cons L ms ih =>
    intro hn hr
    cases ms with
    | nil =>
      rw [show joinNL [L] = L from rfl,
        show bulletMatches L = bulletGo BState.ws1 L from rfl,
        bulletGo_last (hn L (by simp)) (hr L (by simp)),
        List.filterMap_cons]
      cases hL : lineBulletRaw L <;> rfl
    | cons M ms2 =>
      have ihh := ih (fun K hK => hn K (by simp [hK])) (fun K hK => hr K (by simp [hK]))
      rw [show bulletMatches (joinNL (L :: M :: ms2))
            = bulletGo BState.ws1 (L ++ '\n' :: joinNL (M :: ms2)) from rfl,
        bulletGo_line (hn L (by simp)) (hr L (by simp)),
        List.filterMap_cons]
      cases hL : lineBulletRaw L
      · exact ihh
      · rw [show bulletGo BState.ws1 (joinNL (M :: ms2)) = bulletMatches (joinNL (M :: ms2)) from rfl,
          ihh]

/-- C8, counterexample: the regex is not line-based.  On "-\nx" the claim
reads one marker line "-" with empty trailing content (claim-side value
[""]), but the second \s* of the regex consumes the newline (JS \s matches
newlines), so (.*) captures the NEXT line and the extractor returns ["x"]. -/
theorem c8_counterexample :
    extractBulletPoints ("-\nx".toList) = ["x".toList]
    ∧ "-\nx".toList = joinNL [['-'], ['x']]
    ∧ ([['-'], ['x']].filterMap lineBulletRaw).map trimStr = [[]]
    ∧ extractBulletPoints ("-\nx".toList)
        ≠ ([['-'], ['x']].filterMap lineBulletRaw).map trimStr := by
  refine ⟨by decide, by decide, by decide, ?_⟩
  decide

/-- C8, amended: on texts assembled from newline-free lines, (1) when every
marker line (a line whose content after optional whitespace starts with -, *,
bullet, or digits followed by a period) carries content that is non-empty
after trimming, and at least one such line exists, the extractor returns
exactly those lines' trailing content, in order, marker and surrounding
whitespace stripped; (2) when no marker line exists, it returns the first at
most 5 non-empty trimmed fragments of the sentence split.  (The original
claim fails without the non-empty-content proviso: a marker whose \s* run
reaches the newline swallows it, merging the next line into the capture,
as the counterexample shows.) -/
theorem c8_amended (ls : List Str)
    (hn : ∀ L ∈ ls, ∀ c ∈ L, c ≠ '\n') :
    ((∀ L ∈ ls, ∀ r, lineBulletRaw L = some r → trimStr r ≠ []) →
      (∃ L ∈ ls, lineBulletRaw L ≠ none) →
      extractBulletPoints (joinNL ls) = (ls.filterMap lineBulletRaw).map trimStr)
    ∧ ((∀ L ∈ ls, lineBulletRaw L = none) →
      extractBulletPoints (joinNL ls)
        = ((((splitSentences (joinNL ls)).map trimStr).filter
            (fun g => !g.isEmpty)).take 5)
      ∧ (extractBulletPoints (joinNL ls)).length ≤ 5
      ∧ ∀ g ∈ extractBulletPoints (joinNL ls), g ≠ []) := by
  constructor
  · intro hne hex
    have hr : ∀ L ∈ ls, ∀ r, lineBulletRaw L = some r → r ≠ [] := by
      intro L hL r h0 hnil
      exact hne L hL r h0 (by rw [hnil]; rfl)
    have hms := bulletMatches_lines ls hn hr
    obtain ⟨L, hL, hsome⟩ := hex
    have hnonnil : ls.filterMap lineBulletRaw ≠ [] := by
      intro h0
      cases ho : lineBulletRaw L with
      | none => exact hsome ho
      | some r =>
        have hmem : r ∈ ls.filterMap lineBulletRaw := List.mem_filterMap.mpr ⟨L, hL, ho⟩
        rw [h0] at hmem
        exact absurd hmem (List.not_mem_nil r)
    simp only [extractBulletPoints, hms]
    rw [if_neg (by simpa [List.isEmpty_iff] using hnonnil)]
    refine List.filter_eq_self.mpr ?_
    intro a ha
    obtain ⟨r, hr0, rfl⟩ := List.mem_map.mp ha
    obtain ⟨K, hK, hKr⟩ := List.mem_filterMap.mp hr0
    simpa [List.isEmpty_iff] using hne K hK r hKr
  · intro hall
    have hr : ∀ L ∈ ls, ∀ r, lineBulletRaw L = some r → r ≠ [] := by
      intro L hL r h0
      rw [hall L hL] at h0
      exact absurd h0 (by simp)
    have hms := bulletMatches_lines ls hn hr
    have hfm : ls.filterMap lineBulletRaw = [] := by
      rw [List.filterMap_eq_nil_iff]
      exact hall
    have hempty : bulletMatches (joinNL ls) = [] := hms.trans hfm
    have hebp : extractBulletPoints (joinNL ls)
        = ((((splitSentences (joinNL ls)).map trimStr).filter
            (fun g => !g.isEmpty)).take 5) := by
      simp only [extractBulletPoints, hempty]
      rfl
    refine ⟨hebp, ?_, ?_⟩
    · rw [hebp]
      exact List.length_take_le 5 _
    · intro g hg
      rw [hebp] at hg
      have hg2 := List.mem_filter.mp (List.mem_of_mem_take hg)
      simpa [List.isEmpty_iff] using hg2.2

/-- C8, witness: the amended theorem at a concrete three-line text. -/
theorem c8_amended_witness :
    extractBulletPoints (joinNL ["- a".toList, "x".toList, "1. b".toList])
      = ["a".toList, "b".toList] := by
  have hA : ∀ L ∈ ["- a".toList, "x".toList, "1. b".toList],
      ∀ r, lineBulletRaw L = some r → trimStr r ≠ [] := by
    intro L hL r hr0
    have hL3 : L = "- a".toList ∨ L = "x".toList ∨ L = "1. b".toList := by
      simpa using hL
    rcases hL3 with h | h | h <;> subst h
    · have h2 : lineBulletRaw ("- a".toList) = some ['a'] := by decide
      rw [h2] at hr0
      rw [← Option.some.inj hr0]
      decide
    · have h2 : lineBulletRaw ("x".toList) = none := by decide
      rw [h2] at hr0
      exact absurd hr0 (by simp)
    · have h2 : lineBulletRaw ("1. b".toList) = some ['b'] := by decide
      rw [h2] at hr0
      rw [← Option.some.inj hr0]
      decide
  have hB : ∃ L ∈ ["- a".toList, "x".toList, "1. b".toList], lineBulletRaw L ≠ none :=
    ⟨"- a".toList, by simp, by decide⟩
  have h := (c8_amended ["- a".toList, "x".toList, "1. b".toList] (by decide)).1 hA hB
  rw [h]
  decide
